import Mathlib

/-!
# Ingress force-ssl-redirect / TLS consistency policy

A shallow embedding of `validate.go` and `settings.go`: the admission policy
that accepts or rejects a Kubernetes Ingress depending on whether its
force-ssl-redirect annotation is backed by a TLS section whose hosts match the
hosts of its rules.

Conventions of the embedding

* A Go pointer that may be nil is an `Option`; a Go slice is a `List`.
* A Go `map[string]string` is an association list read with `List.lookup`.
* A Go `map[string]struct{}` used as a set is a duplicate-free list of keys;
  the order in which `range` visits the keys is not fixed by the language, so
  it is a parameter of the evaluation (`RangeOrder`).
* A function that can dereference nil returns an `Option`; `none` is the
  runtime fault.
-/

namespace IngressForceSsl

/-! ## Strings -/

/-- Modelled from the spec: the white space that Go's `strings.TrimSpace`
removes ("trimming leading/trailing whitespace"). The library function is not
part of the repository; this is the Unicode White_Space set it documents. -/
def isSpace (c : Char) : Bool :=
  let n := c.toNat
  (9 ≤ n && n ≤ 13) || n == 0x20 || n == 0x85 || n == 0xA0 || n == 0x1680 ||
  (0x2000 ≤ n && n ≤ 0x200A) || n == 0x2028 || n == 0x2029 || n == 0x202F ||
  n == 0x205F || n == 0x3000

/-- Modelled from the spec: Go's `strings.TrimSpace`, which is not part of the
repository: the string without its leading and trailing white space. -/
def trimSpace (s : String) : String :=
  String.mk ((s.data.dropWhile isSpace).reverse.dropWhile isSpace).reverse

/-- The representative of a character's simple case-folding orbit, for the
orbits that contain an ASCII character: an ASCII capital goes to its small
letter, the Kelvin sign to `k` and the long s to `s`. -/
def foldKey (c : Char) : Char :=
  if 'A'.toNat ≤ c.toNat ∧ c.toNat ≤ 'Z'.toNat then Char.ofNat (c.toNat + 32)
  else if c.toNat = 0x212A then 'k'
  else if c.toNat = 0x17F then 's'
  else c

/-- Modelled from the spec: Go's `strings.EqualFold`, which is not part of the
repository ("case-insensitively equals"). Two strings are equal under folding
when they have the same number of characters and corresponding characters lie
in the same folding orbit. The orbits are exact whenever one of the two
strings is ASCII, which is the only use the policy makes of it. -/
def equalFold (s t : String) : Bool :=
  s.data.map foldKey == t.data.map foldKey

/-- Go's `strings.Join`. -/
def join (elems : List String) (sep : String) : String :=
  sep.intercalate elems

/-! ## Data model -/

/-- Policy settings (`settings.go`). -/
structure Settings where
  ValidateForceSslRedirect : Bool
deriving DecidableEq, Repr

/-- Modelled from the spec: the metadata of the resource, a type of the
Kubernetes object library. Only `Annotations` is read by the evaluator; the
map may be nil. -/
structure ObjectMeta where
  Name : String
  Namespace : String
  Annotations : Option (List (String × String))
deriving DecidableEq, Repr

/-- Modelled from the spec: a routing rule, a type of the Kubernetes object
library. `Paths` stands for the HTTP paths and backends of the rule. -/
structure IngressRule where
  Host : String
  Paths : List String
deriving DecidableEq, Repr

/-- Modelled from the spec: a TLS entry, a type of the Kubernetes object
library. -/
structure IngressTLS where
  Hosts : List String
  SecretName : String
deriving DecidableEq, Repr

/-- Modelled from the spec: the spec of the resource; both sequences hold
pointers, so an entry may be absent. -/
structure IngressSpec where
  Rules : List (Option IngressRule)
  TLS : List (Option IngressTLS)
deriving DecidableEq, Repr

/-- Modelled from the spec: the Ingress resource; metadata and spec are
pointers. -/
structure Ingress where
  Metadata : Option ObjectMeta
  Spec : Option IngressSpec
deriving DecidableEq, Repr

/-- Modelled from the spec: the response of the policy SDK, "an accepted flag,
plus on rejection a message and an optional numeric code". -/
structure ValidationResponse where
  Accepted : Bool
  Message : Option String
  Code : Option Nat
deriving DecidableEq, Repr

/-- The bad-request code used by `validate` on its decoding failures. -/
def httpBadRequestStatusCode : Nat := 400

/-- Modelled from the spec: the SDK's "no code" value. -/
def NoCode : Nat := 0

/-- Modelled from the spec: the SDK's accepting response. -/
def AcceptRequest : ValidationResponse := ⟨true, none, none⟩

/-- Modelled from the spec: the SDK's rejecting response; an empty message and
the `NoCode` value are left out of the response. -/
def RejectRequest (message : String) (code : Nat) : ValidationResponse :=
  ⟨false, if message = "" then none else some message,
    if code = NoCode then none else some code⟩

/-! ## Host sets -/

/-- A `map[string]struct{}`: its keys, without duplicates. -/
abbrev HostSet := List String

/-- The assignment `m[h] = struct{}{}`. -/
def setKey (m : HostSet) (h : String) : HostSet :=
  if h ∈ m then m else m ++ [h]

/-- The order in which a `range` over a host map visits its keys: some
rearrangement of the keys, one for each of the two loops of
`compareRuleAndTLSHosts`. -/
structure RangeOrder where
  rule : List String → List String
  tls : List String → List String
  rule_perm : ∀ l, (rule l).Perm l
  tls_perm : ∀ l, (tls l).Perm l

/-- Keys visited in the order they were inserted. -/
def insertionOrder : RangeOrder := ⟨id, id, fun _ => List.Perm.refl _, fun _ => List.Perm.refl _⟩

/-- Keys visited in the reverse of the order they were inserted. -/
def reverseOrder : RangeOrder :=
  ⟨List.reverse, List.reverse, fun l => List.reverse_perm l, fun l => List.reverse_perm l⟩

/-! ## The policy -/

/-- The two recognized annotation keys, in the order the loop visits them. -/
def keys : List String :=
  ["nginx.ingress.kubernetes.io/force-ssl-redirect", "force-ssl-redirect"]

/-- The loop `for _, k := range keys` of `isForceSSLRedirectEnabled`. -/
def keysLoop (annotations : List (String × String)) : List String → Bool
  | [] => false
  | k :: ks =>
    match annotations.lookup k with
    | some v => if equalFold (trimSpace v) "true" then true else keysLoop annotations ks
    | none => keysLoop annotations ks

/-- The function `isForceSSLRedirectEnabled`; `none` is the nil map. -/
def isForceSSLRedirectEnabled (annotations : Option (List (String × String))) : Bool :=
  match annotations with
  | none => false
  | some m => keysLoop m keys

/-- The loop over `ingress.Spec.Rules` of `collectRuleHosts`; an error is the
early return. -/
def ruleLoop : List (Option IngressRule) → HostSet → Except String HostSet
  | [], ruleHosts => .ok ruleHosts
  | none :: rest, ruleHosts => ruleLoop rest ruleHosts
  | some rule :: rest, ruleHosts =>
    if rule.Host = "" then
      .error "force-ssl-redirect is true but one or more Ingress rules have an empty host"
    else ruleLoop rest (setKey ruleHosts rule.Host)

/-- The function `collectRuleHosts`. It reads `ingress.Spec.Rules` without a
nil check, so a missing spec is a fault (`none`). The nil map of the error
returns is the empty set. -/
def collectRuleHosts (ingress : Ingress) : Option (HostSet × String) :=
  match ingress.Spec with
  | none => none
  | some spec =>
    match ruleLoop spec.Rules [] with
    | .error msg => some ([], msg)
    | .ok ruleHosts =>
      if ruleHosts.length = 0 then
        some ([], "force-ssl-redirect is true but Ingress has no rules with host defined")
      else some (ruleHosts, "")

/-- The inner loop `for _, h := range tls.Hosts` of `collectTLSHosts`. -/
def tlsHostsLoop : List String → HostSet → HostSet
  | [], tlsHosts => tlsHosts
  | h :: rest, tlsHosts =>
    if h = "" then tlsHostsLoop rest tlsHosts else tlsHostsLoop rest (setKey tlsHosts h)

/-- The outer loop over `ingress.Spec.TLS` of `collectTLSHosts`. -/
def tlsLoop : List (Option IngressTLS) → HostSet → HostSet
  | [], tlsHosts => tlsHosts
  | none :: rest, tlsHosts => tlsLoop rest tlsHosts
  | some tls :: rest, tlsHosts => tlsLoop rest (tlsHostsLoop tls.Hosts tlsHosts)

/-- The function `collectTLSHosts`; a missing spec is a fault (`none`). -/
def collectTLSHosts (ingress : Ingress) : Option (HostSet × String) :=
  match ingress.Spec with
  | none => none
  | some spec =>
    let tlsHosts := tlsLoop spec.TLS []
    if tlsHosts.length = 0 then
      some ([], "force-ssl-redirect is true but spec.tls[*].hosts is empty")
    else some (tlsHosts, "")

/-- The function `compareRuleAndTLSHosts`, for a given visiting order of the
two maps. -/
def compareRuleAndTLSHosts (ord : RangeOrder) (ruleHosts tlsHosts : HostSet) : String :=
  let missingFromTLS := (ord.rule ruleHosts).filter (fun host => !(tlsHosts.contains host))
  let extraInTLS := (ord.tls tlsHosts).filter (fun host => !(ruleHosts.contains host))
  if missingFromTLS.length = 0 ∧ extraInTLS.length = 0 then ""
  else
    let msgParts := ["TLS hosts must match Ingress rules hosts when force-ssl-redirect is true"]
    let msgParts :=
      if missingFromTLS.length > 0 then
        msgParts ++ ["missing TLS entries for hosts: " ++ join missingFromTLS ","]
      else msgParts
    let msgParts :=
      if extraInTLS.length > 0 then
        msgParts ++ ["TLS has extra hosts not present in rules: " ++ join extraInTLS ","]
      else msgParts
    join msgParts "; "

/-- The annotation map that `evaluateIngressRequest` inspects: an empty map,
replaced by the map of the metadata when both the metadata and its map are
present. -/
def ingressAnnotations (ingress : Ingress) : List (String × String) :=
  match ingress.Metadata with
  | none => []
  | some metadata =>
    match metadata.Annotations with
    | none => []
    | some a => a

/-- The function `evaluateIngressRequest`, for a given visiting order of the
host maps; `none` is a runtime fault. -/
def evaluateIngressRequest (ord : RangeOrder) (settings : Settings) (ingress : Ingress) :
    Option ValidationResponse :=
  if !settings.ValidateForceSslRedirect then some AcceptRequest
  else
    let annotations := ingressAnnotations ingress
    let forceSsl := isForceSSLRedirectEnabled (some annotations)
    if !forceSsl then some AcceptRequest
    else
      match ingress.Spec with
      | none => some (RejectRequest "force-ssl-redirect is true but Ingress spec is missing" NoCode)
      | some spec =>
        if spec.TLS.length = 0 then
          some (RejectRequest
            "force-ssl-redirect is true but no TLS configuration (spec.tls) is defined" NoCode)
        else
          match collectRuleHosts ingress with
          | none => none
          | some (ruleHosts, ruleErr) =>
            if ruleErr ≠ "" then some (RejectRequest ruleErr NoCode)
            else
              match collectTLSHosts ingress with
              | none => none
              | some (tlsHosts, tlsErr) =>
                if tlsErr ≠ "" then some (RejectRequest tlsErr NoCode)
                else
                  let compareErr := compareRuleAndTLSHosts ord ruleHosts tlsHosts
                  if compareErr ≠ "" then some (RejectRequest compareErr NoCode)
                  else some AcceptRequest

/-- The three decoding steps of `validate`, which the JSON library and the
policy SDK carry out: the request envelope is decoded into the raw settings and
the raw object, then each of the two is decoded; a step returns its value or
the text of its error. -/
structure Decoders where
  unmarshalRequest : String → Except String (String × String)
  newSettings : String → Except String Settings
  unmarshalIngress : String → Except String Ingress

/-- The function `validate`, for given decoders; the logging call between the
decoding and the evaluation has no effect on the response. -/
def validate (dec : Decoders) (ord : RangeOrder) (payload : String) :
    Option ValidationResponse :=
  match dec.unmarshalRequest payload with
  | .error err => some (RejectRequest err httpBadRequestStatusCode)
  | .ok (settingsJSON, ingressJSON) =>
    match dec.newSettings settingsJSON with
    | .error err => some (RejectRequest err httpBadRequestStatusCode)
    | .ok settings =>
      match dec.unmarshalIngress ingressJSON with
      | .error err =>
        some (RejectRequest ("Cannot decode Ingress object: " ++ err) httpBadRequestStatusCode)
      | .ok ingress => evaluateIngressRequest ord settings ingress

/-- Decoders that fail on the empty payload and otherwise decode every
payload into enabled settings and the base resource. -/
def sampleDecoders : Decoders :=
  ⟨fun payload => if payload = "" then .error "unexpected end of JSON input"
      else .ok (payload, payload),
    fun _ => .ok ⟨true⟩,
    fun _ => .ok ⟨some ⟨"test-ingress", "default",
      some [("nginx.ingress.kubernetes.io/force-ssl-redirect", "true")]⟩, some ⟨[], []⟩⟩⟩

/-! ## What the policy observes of an ingress -/

/-- The value of an annotation key of the ingress, `none` when the metadata,
the annotation map or the key is absent. -/
def annotationValue (ingress : Ingress) (key : String) : Option String :=
  match ingress.Metadata with
  | none => none
  | some metadata =>
    match metadata.Annotations with
    | none => none
    | some a => a.lookup key

/-- The sequence of rule presence and hosts. -/
def ruleView (rules : List (Option IngressRule)) : List (Option String) :=
  rules.map (Option.map (fun rule => rule.Host))

/-- The sequence of TLS entry presence and host lists. -/
def tlsView (tls : List (Option IngressTLS)) : List (Option (List String)) :=
  tls.map (Option.map (fun e => e.Hosts))

/-- Whether the spec is present and, when it is, its rule and TLS views. -/
def specView (spec : Option IngressSpec) :
    Option (List (Option String) × List (Option (List String))) :=
  spec.map (fun s => (ruleView s.Rules, tlsView s.TLS))

/-- An ingress with other name, namespace, annotations, paths and secret. -/
def decoratedIngress : Ingress :=
  ⟨some ⟨"other", "prod",
      some [("team", "web"), ("nginx.ingress.kubernetes.io/force-ssl-redirect", "true")]⟩,
    some ⟨[some ⟨"example.com", ["/api"]⟩], [some ⟨["other.com"], "tls-secret"⟩]⟩⟩

/-- The spec without the absent entries of its rules sequence. -/
def dropAbsentRules (spec : IngressSpec) : IngressSpec :=
  ⟨spec.Rules.filter Option.isSome, spec.TLS⟩

/-- A TLS entry without the empty strings of its host list. -/
def dropEmptyHosts (e : IngressTLS) : IngressTLS :=
  ⟨e.Hosts.filter (fun h => h ≠ ""), e.SecretName⟩

/-- The spec without the absent entries of its rules and TLS sequences and
without the empty strings of every TLS host list. -/
def dropAbsentAndEmpty (spec : IngressSpec) : IngressSpec :=
  ⟨spec.Rules.filter Option.isSome,
    (spec.TLS.filter Option.isSome).map (Option.map dropEmptyHosts)⟩

/-! ## The host sets of the specification -/

/-- The set R of the specification: the hosts of the present rules. -/
def ruleHostSet (rules : List (Option IngressRule)) : Finset String :=
  ((rules.filterMap id).map (fun rule => rule.Host)).toFinset

/-- The set T of the specification: the non-empty host strings pooled from
all present TLS entries. -/
def tlsHostSet (tls : List (Option IngressTLS)) : Finset String :=
  (((tls.filterMap id).flatMap (fun e => e.Hosts)).filter (fun h => h ≠ "")).toFinset

/-- The mismatch message as the specification words it: the lead-in, then the
clause of the hosts missing from TLS when there are any, then the clause of
the extra TLS hosts when there are any, joined with "; "; each host list is
joined with ",". -/
def mismatchMessage (missing extra : List String) : String :=
  join
    (["TLS hosts must match Ingress rules hosts when force-ssl-redirect is true"] ++
      (if missing = [] then [] else ["missing TLS entries for hosts: " ++ join missing ","]) ++
      (if extra = [] then [] else
        ["TLS has extra hosts not present in rules: " ++ join extra ","]))
    "; "

/-! ## Concrete resources -/

/-- Metadata whose annotation map enables the redirect under the nginx key. -/
def enabledMeta : ObjectMeta :=
  ⟨"test-ingress", "default", some [("nginx.ingress.kubernetes.io/force-ssl-redirect", "true")]⟩

/-- The base resource of the tests: redirect enabled, empty spec. -/
def baseIngress : Ingress := ⟨some enabledMeta, some ⟨[], []⟩⟩

/-- Rule and TLS host both `example.com`. -/
def matchingIngress : Ingress :=
  ⟨some enabledMeta, some ⟨[some ⟨"example.com", []⟩], [some ⟨["example.com"], ""⟩]⟩⟩

/-- An annotation map with the nginx key set to false and the bare key set to true. -/
def bothKeys : List (String × String) :=
  [("nginx.ingress.kubernetes.io/force-ssl-redirect", "false"), ("force-ssl-redirect", "true")]

/-- The mismatching resource of the tests: rule host `example.com`, TLS host
`other.com`. -/
def mismatchedIngress : Ingress :=
  ⟨some enabledMeta, some ⟨[some ⟨"example.com", []⟩], [some ⟨["other.com"], ""⟩]⟩⟩

/-- Rule hosts a.com and b.com, neither covered by the TLS host c.com. -/
def twoMissingIngress : Ingress :=
  ⟨some enabledMeta,
    some ⟨[some ⟨"a.com", []⟩, some ⟨"b.com", []⟩], [some ⟨["c.com"], "s"⟩]⟩⟩

/-- Rules a.com and b.com, each covered by a TLS entry of its own. -/
def splitTlsIngress : Ingress :=
  ⟨some enabledMeta,
    some ⟨[some ⟨"a.com", []⟩, some ⟨"b.com", []⟩],
      [some ⟨["a.com"], "s1"⟩, some ⟨["b.com"], "s2"⟩]⟩⟩

/-- Rules a.com and b.com, covered by one TLS entry. -/
def pooledTlsIngress : Ingress :=
  ⟨some enabledMeta,
    some ⟨[some ⟨"a.com", []⟩, some ⟨"b.com", []⟩], [some ⟨["a.com", "b.com"], "s"⟩]⟩⟩

/-- The rule host a.com twice, covered by one TLS entry. -/
def duplicateRuleIngress : Ingress :=
  ⟨some enabledMeta,
    some ⟨[some ⟨"a.com", []⟩, some ⟨"a.com", []⟩], [some ⟨["a.com"], "s"⟩]⟩⟩

/-- A resource with absent rule and TLS entries and empty TLS host strings
around the rule host and TLS host a.com. -/
def paddedIngress : Ingress :=
  ⟨some enabledMeta,
    some ⟨[none, some ⟨"a.com", []⟩, none], [none, some ⟨["", "a.com", ""], "s"⟩, none]⟩⟩

/-- The resource `twoMissingIngress` under another name and namespace, with
an extra annotation, rule paths and another TLS secret. -/
def decoratedTwoMissingIngress : Ingress :=
  ⟨some ⟨"other", "prod",
      some [("team", "web"), ("nginx.ingress.kubernetes.io/force-ssl-redirect", "true")]⟩,
    some ⟨[some ⟨"a.com", ["/api"]⟩, some ⟨"b.com", ["/"]⟩], [some ⟨["c.com"], "tls-secret"⟩]⟩⟩

/-- The spec of `twoMissingIngress` with absent entries among its rules. -/
def paddedTwoMissingSpec : IngressSpec :=
  ⟨[none, some ⟨"a.com", []⟩, none, some ⟨"b.com", []⟩], [some ⟨["c.com"], "s"⟩]⟩

/-! ## Lemmas on the loops -/

theorem mem_setKey (m : HostSet) (h x : String) : x ∈ setKey m h ↔ x ∈ m ∨ x = h := by
  unfold setKey
  by_cases hm : h ∈ m
  · simp only [hm, if_true]
    constructor
    · exact Or.inl
    · rintro (h1 | h1)
      · exact h1
      · exact h1 ▸ hm
  · simp [hm]

theorem mem_ruleHostSet (rules : List (Option IngressRule)) (h : String) :
    h ∈ ruleHostSet rules ↔ ∃ rule, some rule ∈ rules ∧ rule.Host = h := by
  simp [ruleHostSet]

theorem mem_tlsHostSet (tls : List (Option IngressTLS)) (h : String) :
    h ∈ tlsHostSet tls ↔ ∃ e, some e ∈ tls ∧ h ∈ e.Hosts ∧ h ≠ "" := by
  simp only [tlsHostSet, List.mem_toFinset, List.mem_filter, List.mem_flatMap, List.mem_filterMap,
    id, decide_eq_true_eq]
  constructor
  · rintro ⟨⟨e, ⟨a, ha, rfl⟩, he⟩, hne⟩
    exact ⟨e, ha, he, hne⟩
  · rintro ⟨e, he, hh, hne⟩
    exact ⟨⟨e, ⟨some e, he, rfl⟩, hh⟩, hne⟩

theorem ruleLoop_error (rules : List (Option IngressRule)) (acc : HostSet)
    (hex : ∃ rule, some rule ∈ rules ∧ rule.Host = "") :
    ruleLoop rules acc =
      .error "force-ssl-redirect is true but one or more Ingress rules have an empty host" := by
  induction rules generalizing acc with
  | nil => simp at hex
  | cons r rest ih =>
    cases r with
    | none =>
      simp only [ruleLoop]
      apply ih
      obtain ⟨rule, hmem, hrule⟩ := hex
      simp at hmem
      exact ⟨rule, hmem, hrule⟩
    | some rule0 =>
      simp only [ruleLoop]
      by_cases h0 : rule0.Host = ""
      · simp [h0]
      · simp only [h0, if_false]
        apply ih
        obtain ⟨rule, hmem, hrule⟩ := hex
        simp at hmem
        rcases hmem with hmem | hmem
        · exact absurd (hmem ▸ hrule) h0
        · exact ⟨rule, hmem, hrule⟩

theorem ruleLoop_ok (rules : List (Option IngressRule)) (acc : HostSet)
    (hall : ∀ rule, some rule ∈ rules → rule.Host ≠ "") :
    ∃ res, ruleLoop rules acc = .ok res ∧
      ∀ h, h ∈ res ↔ h ∈ acc ∨ ∃ rule, some rule ∈ rules ∧ rule.Host = h := by
  induction rules generalizing acc with
  | nil => exact ⟨acc, rfl, by simp⟩
  | cons r rest ih =>
    cases r with
    | none =>
      obtain ⟨res, hres, hmem⟩ := ih acc (fun rule hr => hall rule (List.mem_cons_of_mem _ hr))
      refine ⟨res, by simpa [ruleLoop] using hres, ?_⟩
      intro h
      simp [hmem h]
    | some rule0 =>
      have h0 : rule0.Host ≠ "" := hall rule0 (List.mem_cons_self _ _)
      obtain ⟨res, hres, hmem⟩ :=
        ih (setKey acc rule0.Host) (fun rule hr => hall rule (List.mem_cons_of_mem _ hr))
      refine ⟨res, by simpa [ruleLoop, h0] using hres, ?_⟩
      intro h
      rw [hmem h, mem_setKey]
      constructor
      · rintro ((h1 | h1) | ⟨rule, hr, hh⟩)
        · exact Or.inl h1
        · exact Or.inr ⟨rule0, List.mem_cons_self _ _, h1.symm⟩
        · exact Or.inr ⟨rule, List.mem_cons_of_mem _ hr, hh⟩
      · rintro (h1 | ⟨rule, hr, hh⟩)
        · exact Or.inl (Or.inl h1)
        · simp at hr
          rcases hr with hr | hr
          · exact Or.inl (Or.inr (hr ▸ hh.symm))
          · exact Or.inr ⟨rule, hr, hh⟩

theorem mem_tlsHostsLoop (hosts : List String) (acc : HostSet) (x : String) :
    x ∈ tlsHostsLoop hosts acc ↔ x ∈ acc ∨ (x ∈ hosts ∧ x ≠ "") := by
  induction hosts generalizing acc with
  | nil => simp [tlsHostsLoop]
  | cons h rest ih =>
    by_cases h0 : h = ""
    · simp only [tlsHostsLoop, h0, if_true, ih, List.mem_cons]
      constructor
      · rintro (h1 | ⟨h1, h2⟩)
        · exact Or.inl h1
        · exact Or.inr ⟨Or.inr h1, h2⟩
      · rintro (h1 | ⟨h1 | h1, h2⟩)
        · exact Or.inl h1
        · exact absurd h1 h2
        · exact Or.inr ⟨h1, h2⟩
    · simp only [tlsHostsLoop, h0, if_false, ih, mem_setKey, List.mem_cons]
      constructor
      · rintro ((h1 | h1) | ⟨h1, h2⟩)
        · exact Or.inl h1
        · exact Or.inr ⟨Or.inl h1, h1 ▸ h0⟩
        · exact Or.inr ⟨Or.inr h1, h2⟩
      · rintro (h1 | ⟨h1 | h1, h2⟩)
        · exact Or.inl (Or.inl h1)
        · exact Or.inl (Or.inr h1)
        · exact Or.inr ⟨h1, h2⟩

theorem mem_tlsLoop (tls : List (Option IngressTLS)) (acc : HostSet) (x : String) :
    x ∈ tlsLoop tls acc ↔ x ∈ acc ∨ ∃ e, some e ∈ tls ∧ x ∈ e.Hosts ∧ x ≠ "" := by
  induction tls generalizing acc with
  | nil => simp [tlsLoop]
  | cons t rest ih =>
    cases t with
    | none => simp [tlsLoop, ih]
    | some e0 =>
      simp only [tlsLoop, ih, mem_tlsHostsLoop, List.mem_cons, Option.some.injEq]
      constructor
      · rintro ((h1 | h1) | ⟨e, he, hx⟩)
        · exact Or.inl h1
        · exact Or.inr ⟨e0, Or.inl rfl, h1⟩
        · exact Or.inr ⟨e, Or.inr he, hx⟩
      · rintro (h1 | ⟨e, he | he, hx⟩)
        · exact Or.inl (Or.inl h1)
        · exact Or.inl (Or.inr (he ▸ hx))
        · exact Or.inr ⟨e, he, hx⟩

/-! ## Lemmas on the comparison -/

theorem intercalate_go_data (sep : String) (l : List String) (acc : String) :
    ∃ t, (String.intercalate.go acc sep l).data = acc.data ++ t := by
  induction l generalizing acc with
  | nil => exact ⟨[], by simp [String.intercalate.go]⟩
  | cons b bs ih =>
    obtain ⟨t, ht⟩ := ih (acc ++ sep ++ b)
    refine ⟨sep.data ++ b.data ++ t, ?_⟩
    simp only [String.intercalate.go, ht, String.data_append, List.append_assoc]

theorem join_cons_ne_empty (a sep : String) (l : List String) (ha : a ≠ "") :
    join (a :: l) sep ≠ "" := by
  intro h
  obtain ⟨t, ht⟩ := intercalate_go_data sep l a
  have h1 : (join (a :: l) sep).data = a.data ++ t := by
    simpa [join, String.intercalate] using ht
  rw [h] at h1
  have h2 : a.data = [] := by
    have h3 : ([] : List Char) = a.data ++ t := h1
    cases hd : a.data with
    | nil => rfl
    | cons c cs => rw [hd] at h3; simp at h3
  exact ha (String.ext h2)

theorem mem_missing (ord : RangeOrder) (ruleHosts tlsHosts : HostSet) (x : String) :
    x ∈ (ord.rule ruleHosts).filter (fun host => !(tlsHosts.contains host)) ↔
      x ∈ ruleHosts ∧ x ∉ tlsHosts := by
  simp [List.mem_filter, (ord.rule_perm ruleHosts).mem_iff]

theorem mem_extra (ord : RangeOrder) (ruleHosts tlsHosts : HostSet) (x : String) :
    x ∈ (ord.tls tlsHosts).filter (fun host => !(ruleHosts.contains host)) ↔
      x ∈ tlsHosts ∧ x ∉ ruleHosts := by
  simp [List.mem_filter, (ord.tls_perm tlsHosts).mem_iff]

theorem compare_eq_empty_iff (ord : RangeOrder) (ruleHosts tlsHosts : HostSet) :
    compareRuleAndTLSHosts ord ruleHosts tlsHosts = "" ↔ ∀ x, x ∈ ruleHosts ↔ x ∈ tlsHosts := by
  unfold compareRuleAndTLSHosts
  simp only [List.length_eq_zero]
  split
  · rename_i hc
    simp only [true_iff]
    intro x
    constructor
    · intro hx
      by_contra hn
      have : x ∈ (ord.rule ruleHosts).filter (fun host => !(tlsHosts.contains host)) :=
        (mem_missing ord ruleHosts tlsHosts x).2 ⟨hx, hn⟩
      rw [hc.1] at this
      simp at this
    · intro hx
      by_contra hn
      have : x ∈ (ord.tls tlsHosts).filter (fun host => !(ruleHosts.contains host)) :=
        (mem_extra ord ruleHosts tlsHosts x).2 ⟨hx, hn⟩
      rw [hc.2] at this
      simp at this
  · rename_i hc
    constructor
    · intro h
      exfalso
      revert h
      split <;> split <;> exact join_cons_ne_empty _ _ _ (by decide)
    · intro hall
      exfalso
      apply hc
      constructor
      · apply List.eq_nil_iff_forall_not_mem.2
        intro x hx
        have := (mem_missing ord ruleHosts tlsHosts x).1 hx
        exact this.2 ((hall x).1 this.1)
      · apply List.eq_nil_iff_forall_not_mem.2
        intro x hx
        have := (mem_extra ord ruleHosts tlsHosts x).1 hx
        exact this.2 ((hall x).2 this.1)

/-! ## The evaluator once enforcement is active -/

theorem evaluate_rule_error (ord : RangeOrder) (settings : Settings) (ingress : Ingress)
    (spec : IngressSpec) (msg : String)
    (hs : settings.ValidateForceSslRedirect = true)
    (hann : isForceSSLRedirectEnabled (some (ingressAnnotations ingress)) = true)
    (hspec : ingress.Spec = some spec) (htls : spec.TLS ≠ [])
    (hloop : ruleLoop spec.Rules [] = .error msg) (hmsg : msg ≠ "") :
    evaluateIngressRequest ord settings ingress = some (RejectRequest msg NoCode) := by
  simp [evaluateIngressRequest, hs, hann, hspec, htls, collectRuleHosts, hloop, hmsg]

theorem evaluate_rule_ok (ord : RangeOrder) (settings : Settings) (ingress : Ingress)
    (spec : IngressSpec) (ruleHosts : HostSet)
    (hs : settings.ValidateForceSslRedirect = true)
    (hann : isForceSSLRedirectEnabled (some (ingressAnnotations ingress)) = true)
    (hspec : ingress.Spec = some spec) (htls : spec.TLS ≠ [])
    (hloop : ruleLoop spec.Rules [] = .ok ruleHosts) :
    evaluateIngressRequest ord settings ingress =
      if ruleHosts = [] then
        some (RejectRequest
          "force-ssl-redirect is true but Ingress has no rules with host defined" NoCode)
      else if tlsLoop spec.TLS [] = [] then
        some (RejectRequest "force-ssl-redirect is true but spec.tls[*].hosts is empty" NoCode)
      else if compareRuleAndTLSHosts ord ruleHosts (tlsLoop spec.TLS []) ≠ "" then
        some (RejectRequest (compareRuleAndTLSHosts ord ruleHosts (tlsLoop spec.TLS [])) NoCode)
      else some AcceptRequest := by
  by_cases hR : ruleHosts = []
  · simp [evaluateIngressRequest, hs, hann, hspec, htls, collectRuleHosts, hloop, hR]
  · by_cases hT : tlsLoop spec.TLS [] = []
    · simp [evaluateIngressRequest, hs, hann, hspec, htls, collectRuleHosts, hloop, hR,
        collectTLSHosts, hT]
    · simp [evaluateIngressRequest, hs, hann, hspec, htls, collectRuleHosts, hloop, hR,
        collectTLSHosts, hT]

theorem reject_ne_accept (msg : String) (code : Nat) : RejectRequest msg code ≠ AcceptRequest := by
  simp [RejectRequest, AcceptRequest]

/-! ## Claims -/

/-- C1 (host set equality): with enforcement on, the annotation enabled, the
spec present, no present rule with an empty host, and the rule host set R and
the pooled non-empty TLS host set T both non-empty, the verdict is Accept
exactly when R = T, and a rejection with a message and no code when R ≠ T,
whatever order the host maps are visited in. -/
theorem host_set_equality (ord : RangeOrder) (settings : Settings) (ingress : Ingress)
    (spec : IngressSpec)
    (hs : settings.ValidateForceSslRedirect = true)
    (hann : isForceSSLRedirectEnabled (some (ingressAnnotations ingress)) = true)
    (hspec : ingress.Spec = some spec)
    (hhost : ∀ rule, some rule ∈ spec.Rules → rule.Host ≠ "")
    (hR : (ruleHostSet spec.Rules).Nonempty) (hT : (tlsHostSet spec.TLS).Nonempty) :
    (evaluateIngressRequest ord settings ingress = some AcceptRequest ↔
        ruleHostSet spec.Rules = tlsHostSet spec.TLS) ∧
    (ruleHostSet spec.Rules ≠ tlsHostSet spec.TLS →
      ∃ msg, msg ≠ "" ∧
        evaluateIngressRequest ord settings ingress = some ⟨false, some msg, none⟩) := by
  have htls : spec.TLS ≠ [] := by
    obtain ⟨x, hx⟩ := hT
    obtain ⟨e, he, _⟩ := (mem_tlsHostSet _ _).1 hx
    exact List.ne_nil_of_mem he
  obtain ⟨ruleHosts, hloop, hmemR⟩ := ruleLoop_ok spec.Rules [] hhost
  have hRne : ruleHosts ≠ [] := by
    obtain ⟨x, hx⟩ := hR
    have : x ∈ ruleHosts := (hmemR x).2 (Or.inr ((mem_ruleHostSet _ _).1 hx))
    exact List.ne_nil_of_mem this
  have hTne : tlsLoop spec.TLS [] ≠ [] := by
    obtain ⟨x, hx⟩ := hT
    have : x ∈ tlsLoop spec.TLS [] := (mem_tlsLoop _ _ _).2 (Or.inr ((mem_tlsHostSet _ _).1 hx))
    exact List.ne_nil_of_mem this
  have hsets : (∀ x, x ∈ ruleHosts ↔ x ∈ tlsLoop spec.TLS []) ↔
      ruleHostSet spec.Rules = tlsHostSet spec.TLS := by
    rw [Finset.ext_iff]
    apply forall_congr'
    intro x
    rw [hmemR x, mem_tlsLoop, mem_ruleHostSet, mem_tlsHostSet]
    simp
  rw [evaluate_rule_ok ord settings ingress spec ruleHosts hs hann hspec htls hloop]
  simp only [hRne, hTne, if_false]
  by_cases hc : compareRuleAndTLSHosts ord ruleHosts (tlsLoop spec.TLS []) = ""
  · have heq := hsets.1 ((compare_eq_empty_iff _ _ _).1 hc)
    simp [hc, heq]
  · have hne : ruleHostSet spec.Rules ≠ tlsHostSet spec.TLS :=
      fun h => hc ((compare_eq_empty_iff _ _ _).2 (hsets.2 h))
    simp only [ne_eq, hc, not_false_eq_true, if_true, hne, iff_false, forall_true_left]
    refine ⟨?_, compareRuleAndTLSHosts ord ruleHosts (tlsLoop spec.TLS []), hc, ?_⟩
    · simp [RejectRequest, AcceptRequest]
    · simp [RejectRequest, hc, NoCode]

/-- Witness of C1 on the matching resource of the tests. -/
theorem host_set_equality_witness :
    (ruleHostSet [some ⟨"example.com", []⟩]).Nonempty ∧
    (tlsHostSet [some ⟨["example.com"], ""⟩]).Nonempty ∧
    (evaluateIngressRequest insertionOrder ⟨true⟩ matchingIngress = some AcceptRequest ↔
      ruleHostSet [some ⟨"example.com", []⟩] = tlsHostSet [some ⟨["example.com"], ""⟩]) :=
  have hR : (ruleHostSet [some ⟨"example.com", []⟩]).Nonempty :=
    ⟨"example.com", by simp [ruleHostSet]⟩
  have hT : (tlsHostSet [some ⟨["example.com"], ""⟩]).Nonempty :=
    ⟨"example.com", by simp [tlsHostSet]⟩
  ⟨hR, hT, (host_set_equality insertionOrder ⟨true⟩ matchingIngress
    ⟨[some ⟨"example.com", []⟩], [some ⟨["example.com"], ""⟩]⟩ rfl (by decide) rfl
    (by simp) hR hT).1⟩

/-- C2 (gate off): when `ValidateForceSslRedirect` is false the evaluator
accepts every ingress. -/
theorem gate_off_accepts (ord : RangeOrder) (settings : Settings) (ingress : Ingress)
    (hs : settings.ValidateForceSslRedirect = false) :
    evaluateIngressRequest ord settings ingress = some AcceptRequest := by
  simp [evaluateIngressRequest, hs]

/-- Witness of C2: the base resource with the gate off. -/
theorem gate_off_accepts_witness :
    evaluateIngressRequest reverseOrder ⟨false⟩ baseIngress = some AcceptRequest :=
  gate_off_accepts reverseOrder ⟨false⟩ baseIngress rfl

/-- C3 (no TLS): with enforcement on, the annotation enabled, the spec present
and an empty TLS sequence, the evaluator rejects with the "no TLS
configuration" message and no code, whatever the rules are. -/
theorem no_tls_rejected (ord : RangeOrder) (settings : Settings) (ingress : Ingress)
    (spec : IngressSpec)
    (hs : settings.ValidateForceSslRedirect = true)
    (hann : isForceSSLRedirectEnabled (some (ingressAnnotations ingress)) = true)
    (hspec : ingress.Spec = some spec) (htls : spec.TLS = []) :
    evaluateIngressRequest ord settings ingress =
      some ⟨false,
        some "force-ssl-redirect is true but no TLS configuration (spec.tls) is defined",
        none⟩ := by
  simp [evaluateIngressRequest, hs, hann, hspec, htls, RejectRequest, NoCode]

/-- Witness of C3: a rule with an empty host and no TLS entry. -/
theorem no_tls_rejected_witness :
    evaluateIngressRequest insertionOrder ⟨true⟩
        ⟨some enabledMeta, some ⟨[some ⟨"", []⟩, none], []⟩⟩ =
      some ⟨false,
        some "force-ssl-redirect is true but no TLS configuration (spec.tls) is defined",
        none⟩ :=
  no_tls_rejected insertionOrder ⟨true⟩ ⟨some enabledMeta, some ⟨[some ⟨"", []⟩, none], []⟩⟩
    ⟨[some ⟨"", []⟩, none], []⟩ rfl (by decide) rfl rfl

/-- C4, as stated, fails: a map with the nginx key present and not true, and
the bare key true, enables the redirect, and an ingress carrying it (with no
spec) is rejected rather than accepted. -/
theorem annotation_priority_counterexample :
    bothKeys.lookup "nginx.ingress.kubernetes.io/force-ssl-redirect" = some "false" ∧
    equalFold (trimSpace "false") "true" = false ∧
    isForceSSLRedirectEnabled (some bothKeys) = true ∧
    evaluateIngressRequest insertionOrder ⟨true⟩ ⟨some ⟨"", "", some bothKeys⟩, none⟩ =
      some ⟨false, some "force-ssl-redirect is true but Ingress spec is missing", none⟩ := by
  refine ⟨by decide, by decide, by decide, ?_⟩
  have h : isForceSSLRedirectEnabled
      (some (ingressAnnotations ⟨some ⟨"", "", some bothKeys⟩, none⟩)) = true := by decide
  simp [evaluateIngressRequest, h, RejectRequest, NoCode]

/-- C4, amended: for a map that contains the nginx key with value v, the
redirect is enabled exactly when v, trimmed, equals "true" under case folding,
or the bare key is present with such a value; the bare key is consulted
whenever the nginx value is not true, so the map with the nginx key "false"
and the bare key "true" enables the redirect. -/
theorem nginx_key_then_bare_key (m : List (String × String)) (v : String)
    (hv : m.lookup "nginx.ingress.kubernetes.io/force-ssl-redirect" = some v) :
    (isForceSSLRedirectEnabled (some m) = true ↔
      equalFold (trimSpace v) "true" = true ∨
      ∃ w, m.lookup "force-ssl-redirect" = some w ∧ equalFold (trimSpace w) "true" = true) ∧
    isForceSSLRedirectEnabled (some bothKeys) = true := by
  refine ⟨?_, by decide⟩
  cases hw : m.lookup "force-ssl-redirect" with
  | none => simp [isForceSSLRedirectEnabled, keys, keysLoop, hv, hw]
  | some w =>
    by_cases h1 : equalFold (trimSpace v) "true" = true
    · simp [isForceSSLRedirectEnabled, keys, keysLoop, hv, hw, h1]
    · simp [isForceSSLRedirectEnabled, keys, keysLoop, hv, hw, h1]

/-- Witness of the amended C4 on the map with both keys. -/
theorem nginx_key_then_bare_key_witness :
    bothKeys.lookup "nginx.ingress.kubernetes.io/force-ssl-redirect" = some "false" ∧
    (isForceSSLRedirectEnabled (some bothKeys) = true ↔
      equalFold (trimSpace "false") "true" = true ∨
      ∃ w, bothKeys.lookup "force-ssl-redirect" = some w ∧
        equalFold (trimSpace w) "true" = true) :=
  ⟨by decide, (nginx_key_then_bare_key bothKeys "false" (by decide)).1⟩

/-- C5 (annotation off): with enforcement on, if neither recognized key of the
annotation map carries a value that, trimmed, equals "true" under case folding
(in particular when the metadata or the map is absent), the evaluator accepts,
whatever the spec, rules and TLS are. -/
theorem annotation_off_accepts (ord : RangeOrder) (settings : Settings) (ingress : Ingress)
    (hs : settings.ValidateForceSslRedirect = true)
    (hoff : ∀ metadata a k v, ingress.Metadata = some metadata →
      metadata.Annotations = some a →
      (k = "nginx.ingress.kubernetes.io/force-ssl-redirect" ∨ k = "force-ssl-redirect") →
      a.lookup k = some v → equalFold (trimSpace v) "true" = false) :
    evaluateIngressRequest ord settings ingress = some AcceptRequest := by
  have hann : isForceSSLRedirectEnabled (some (ingressAnnotations ingress)) = false := by
    cases hm : ingress.Metadata with
    | none => simp [ingressAnnotations, hm, isForceSSLRedirectEnabled, keys, keysLoop]
    | some metadata =>
      cases ha : metadata.Annotations with
      | none => simp [ingressAnnotations, hm, ha, isForceSSLRedirectEnabled, keys, keysLoop]
      | some a =>
        have h1 := hoff metadata a "nginx.ingress.kubernetes.io/force-ssl-redirect"
        have h2 := hoff metadata a "force-ssl-redirect"
        simp only [ingressAnnotations, hm, ha, isForceSSLRedirectEnabled, keys, keysLoop]
        cases hk1 : a.lookup "nginx.ingress.kubernetes.io/force-ssl-redirect" with
        | none =>
          cases hk2 : a.lookup "force-ssl-redirect" with
          | none => rfl
          | some w => simp [h2 w hm ha (Or.inr rfl) hk2]
        | some v =>
          cases hk2 : a.lookup "force-ssl-redirect" with
          | none => simp [h1 v hm ha (Or.inl rfl) hk1]
          | some w => simp [h1 v hm ha (Or.inl rfl) hk1, h2 w hm ha (Or.inr rfl) hk2]
  simp [evaluateIngressRequest, hs, hann]

/-- Witness of C5: the bare key set to "yes", no spec. -/
theorem annotation_off_accepts_witness :
    evaluateIngressRequest insertionOrder ⟨true⟩
      ⟨some ⟨"", "", some [("force-ssl-redirect", "yes")]⟩, none⟩ = some AcceptRequest :=
  annotation_off_accepts insertionOrder ⟨true⟩
    ⟨some ⟨"", "", some [("force-ssl-redirect", "yes")]⟩, none⟩ rfl
    (by
      intro metadata a k v hm ha hk hl
      simp only [Option.some.injEq] at hm
      subst hm
      simp only [Option.some.injEq] at ha
      subst ha
      rcases hk with rfl | rfl
      · have hnone : List.lookup "nginx.ingress.kubernetes.io/force-ssl-redirect"
            [("force-ssl-redirect", "yes")] = none := by decide
        rw [hnone] at hl
        cases hl
      · have hyes : List.lookup "force-ssl-redirect"
            [("force-ssl-redirect", "yes")] = some "yes" := by decide
        rw [hyes] at hl
        cases hl
        decide)

/-- C6 (truthiness): for a map with exactly one of the two recognized keys,
of value v, the redirect is enabled exactly when v, trimmed of white space,
equals "true" under case folding; it is disabled for a map with neither key
and for the nil map. The values "true", " TRUE " and "True" followed by a
line feed count as true; "1", "yes", "", "t rue" and "true!" do not. -/
theorem truthiness_predicate (m : List (String × String)) (v : String) :
    (m.lookup "nginx.ingress.kubernetes.io/force-ssl-redirect" = some v →
      m.lookup "force-ssl-redirect" = none →
      (isForceSSLRedirectEnabled (some m) = true ↔ equalFold (trimSpace v) "true" = true)) ∧
    (m.lookup "nginx.ingress.kubernetes.io/force-ssl-redirect" = none →
      m.lookup "force-ssl-redirect" = some v →
      (isForceSSLRedirectEnabled (some m) = true ↔ equalFold (trimSpace v) "true" = true)) ∧
    (m.lookup "nginx.ingress.kubernetes.io/force-ssl-redirect" = none →
      m.lookup "force-ssl-redirect" = none → isForceSSLRedirectEnabled (some m) = false) ∧
    isForceSSLRedirectEnabled none = false ∧
    (equalFold (trimSpace "true") "true" = true ∧
      equalFold (trimSpace " TRUE ") "true" = true ∧
      equalFold (trimSpace "True\n") "true" = true) ∧
    (equalFold (trimSpace "1") "true" = false ∧
      equalFold (trimSpace "yes") "true" = false ∧
      equalFold (trimSpace "") "true" = false ∧
      equalFold (trimSpace "t rue") "true" = false ∧
      equalFold (trimSpace "true!") "true" = false) := by
  refine ⟨?_, ?_, ?_, rfl, by decide, by decide⟩
  · intro h1 h2
    simp [isForceSSLRedirectEnabled, keys, keysLoop, h1, h2]
  · intro h1 h2
    simp [isForceSSLRedirectEnabled, keys, keysLoop, h1, h2]
  · intro h1 h2
    simp [isForceSSLRedirectEnabled, keys, keysLoop, h1, h2]

/-- Witness of C6: a map with only the bare key, of value " TRUE ". -/
theorem truthiness_predicate_witness :
    isForceSSLRedirectEnabled (some [("force-ssl-redirect", " TRUE ")]) = true ↔
      equalFold (trimSpace " TRUE ") "true" = true :=
  (truthiness_predicate [("force-ssl-redirect", " TRUE ")] " TRUE ").2.1
    (by decide) (by decide)

/-- C7 (empty rule host): with enforcement on, the annotation enabled, the
spec present and a non-empty TLS sequence, a present rule with an empty host
anywhere in the rules gives the "empty host" rejection, with no code. -/
theorem empty_rule_host_rejected (ord : RangeOrder) (settings : Settings) (ingress : Ingress)
    (spec : IngressSpec)
    (hs : settings.ValidateForceSslRedirect = true)
    (hann : isForceSSLRedirectEnabled (some (ingressAnnotations ingress)) = true)
    (hspec : ingress.Spec = some spec) (htls : spec.TLS ≠ [])
    (hempty : ∃ rule, some rule ∈ spec.Rules ∧ rule.Host = "") :
    evaluateIngressRequest ord settings ingress =
      some ⟨false,
        some "force-ssl-redirect is true but one or more Ingress rules have an empty host",
        none⟩ := by
  rw [evaluate_rule_error ord settings ingress spec _ hs hann hspec htls
    (ruleLoop_error spec.Rules [] hempty) (by decide)]
  simp [RejectRequest, NoCode]

/-- Witness of C7: the empty host comes last, after a rule covered by TLS. -/
theorem empty_rule_host_rejected_witness :
    evaluateIngressRequest insertionOrder ⟨true⟩
        ⟨some enabledMeta,
          some ⟨[some ⟨"a.com", []⟩, none, some ⟨"", []⟩], [some ⟨["a.com"], ""⟩]⟩⟩ =
      some ⟨false,
        some "force-ssl-redirect is true but one or more Ingress rules have an empty host",
        none⟩ :=
  empty_rule_host_rejected insertionOrder ⟨true⟩
    ⟨some enabledMeta,
      some ⟨[some ⟨"a.com", []⟩, none, some ⟨"", []⟩], [some ⟨["a.com"], ""⟩]⟩⟩
    ⟨[some ⟨"a.com", []⟩, none, some ⟨"", []⟩], [some ⟨["a.com"], ""⟩]⟩
    rfl (by decide) rfl (by simp) ⟨⟨"", []⟩, by simp, rfl⟩

/-- C8 (spec missing): with enforcement on and the annotation enabled, an
ingress without a spec gets the "spec is missing" rejection, with no code. -/
theorem spec_missing_rejected (ord : RangeOrder) (settings : Settings) (ingress : Ingress)
    (hs : settings.ValidateForceSslRedirect = true)
    (hann : isForceSSLRedirectEnabled (some (ingressAnnotations ingress)) = true)
    (hspec : ingress.Spec = none) :
    evaluateIngressRequest ord settings ingress =
      some ⟨false, some "force-ssl-redirect is true but Ingress spec is missing", none⟩ := by
  simp [evaluateIngressRequest, hs, hann, hspec, RejectRequest, NoCode]

/-- Witness of C8: enabled annotation, no spec. -/
theorem spec_missing_rejected_witness :
    evaluateIngressRequest insertionOrder ⟨true⟩ ⟨some enabledMeta, none⟩ =
      some ⟨false, some "force-ssl-redirect is true but Ingress spec is missing", none⟩ :=
  spec_missing_rejected insertionOrder ⟨true⟩ ⟨some enabledMeta, none⟩ rfl (by decide) rfl

/-- C9 (no rule hosts): with enforcement on, the annotation enabled, the spec
present and a non-empty TLS sequence, rules that are empty or all absent give
the "no rules with host defined" rejection, with no code, whatever the TLS
entries hold. -/
theorem no_rule_hosts_rejected (ord : RangeOrder) (settings : Settings) (ingress : Ingress)
    (spec : IngressSpec)
    (hs : settings.ValidateForceSslRedirect = true)
    (hann : isForceSSLRedirectEnabled (some (ingressAnnotations ingress)) = true)
    (hspec : ingress.Spec = some spec) (htls : spec.TLS ≠ [])
    (hrules : ∀ r ∈ spec.Rules, r = none) :
    evaluateIngressRequest ord settings ingress =
      some ⟨false,
        some "force-ssl-redirect is true but Ingress has no rules with host defined",
        none⟩ := by
  have hhost : ∀ rule, some rule ∈ spec.Rules → rule.Host ≠ "" := by
    intro rule hr
    exact absurd (hrules _ hr) (by simp)
  obtain ⟨ruleHosts, hloop, hmem⟩ := ruleLoop_ok spec.Rules [] hhost
  have hnil : ruleHosts = [] := by
    apply List.eq_nil_iff_forall_not_mem.2
    intro x hx
    rcases (hmem x).1 hx with h | ⟨rule, hr, _⟩
    · simp at h
    · exact absurd (hrules _ hr) (by simp)
  rw [evaluate_rule_ok ord settings ingress spec ruleHosts hs hann hspec htls hloop]
  simp [hnil, RejectRequest, NoCode]

/-- Witness of C9: two absent rules, a TLS entry with a host. -/
theorem no_rule_hosts_rejected_witness :
    evaluateIngressRequest insertionOrder ⟨true⟩
        ⟨some enabledMeta, some ⟨[none, none], [some ⟨["a.com"], ""⟩]⟩⟩ =
      some ⟨false,
        some "force-ssl-redirect is true but Ingress has no rules with host defined",
        none⟩ :=
  no_rule_hosts_rejected insertionOrder ⟨true⟩
    ⟨some enabledMeta, some ⟨[none, none], [some ⟨["a.com"], ""⟩]⟩⟩
    ⟨[none, none], [some ⟨["a.com"], ""⟩]⟩ rfl (by decide) rfl (by simp) (by simp)

/-- C10 (TLS hosts empty): with enforcement on, the annotation enabled, the
spec present, at least one present rule and every present rule with a
non-empty host, a non-empty TLS sequence whose entries are absent or hold only
empty host strings gives the "spec.tls[*].hosts is empty" rejection, with no
code. -/
theorem tls_hosts_empty_rejected (ord : RangeOrder) (settings : Settings) (ingress : Ingress)
    (spec : IngressSpec)
    (hs : settings.ValidateForceSslRedirect = true)
    (hann : isForceSSLRedirectEnabled (some (ingressAnnotations ingress)) = true)
    (hspec : ingress.Spec = some spec)
    (hsome : ∃ rule, some rule ∈ spec.Rules)
    (hhost : ∀ rule, some rule ∈ spec.Rules → rule.Host ≠ "")
    (htls : spec.TLS ≠ [])
    (hnohost : ∀ e, some e ∈ spec.TLS → ∀ h ∈ e.Hosts, h = "") :
    evaluateIngressRequest ord settings ingress =
      some ⟨false, some "force-ssl-redirect is true but spec.tls[*].hosts is empty", none⟩ := by
  obtain ⟨ruleHosts, hloop, hmem⟩ := ruleLoop_ok spec.Rules [] hhost
  have hRne : ruleHosts ≠ [] := by
    obtain ⟨rule, hr⟩ := hsome
    exact List.ne_nil_of_mem ((hmem rule.Host).2 (Or.inr ⟨rule, hr, rfl⟩))
  have hT : tlsLoop spec.TLS [] = [] := by
    apply List.eq_nil_iff_forall_not_mem.2
    intro x hx
    rcases (mem_tlsLoop _ _ _).1 hx with h | ⟨e, he, hxe, hne⟩
    · simp at h
    · exact hne (hnohost e he x hxe)
  rw [evaluate_rule_ok ord settings ingress spec ruleHosts hs hann hspec htls hloop]
  simp [hRne, hT, RejectRequest, NoCode]

/-- Witness of C10: a TLS sequence made of a single absent entry. -/
theorem tls_hosts_empty_rejected_witness :
    evaluateIngressRequest insertionOrder ⟨true⟩
        ⟨some enabledMeta, some ⟨[some ⟨"a.com", []⟩], [none]⟩⟩ =
      some ⟨false, some "force-ssl-redirect is true but spec.tls[*].hosts is empty", none⟩ :=
  tls_hosts_empty_rejected insertionOrder ⟨true⟩
    ⟨some enabledMeta, some ⟨[some ⟨"a.com", []⟩], [none]⟩⟩
    ⟨[some ⟨"a.com", []⟩], [none]⟩ rfl (by decide) rfl ⟨⟨"a.com", []⟩, by simp⟩
    (by simp) (by simp) (by simp)

/-! ## The mismatch message -/

theorem compare_eq_mismatchMessage (ord : RangeOrder) (ruleHosts tlsHosts : HostSet) :
    compareRuleAndTLSHosts ord ruleHosts tlsHosts =
      if (ord.rule ruleHosts).filter (fun host => !(tlsHosts.contains host)) = [] ∧
          (ord.tls tlsHosts).filter (fun host => !(ruleHosts.contains host)) = [] then ""
      else mismatchMessage
        ((ord.rule ruleHosts).filter (fun host => !(tlsHosts.contains host)))
        ((ord.tls tlsHosts).filter (fun host => !(ruleHosts.contains host))) := by
  unfold compareRuleAndTLSHosts mismatchMessage
  generalize (ord.rule ruleHosts).filter (fun host => !(tlsHosts.contains host)) = missing
  generalize (ord.tls tlsHosts).filter (fun host => !(ruleHosts.contains host)) = extra
  cases missing with
  | nil =>
    cases extra with
    | nil => simp
    | cons e es => simp
  | cons m ms =>
    cases extra with
    | nil => simp
    | cons e es => simp

theorem missing_ne_nil_iff (ord : RangeOrder) (ruleHosts tlsHosts : HostSet) :
    (ord.rule ruleHosts).filter (fun host => !(tlsHosts.contains host)) ≠ [] ↔
      ∃ x, x ∈ ruleHosts ∧ x ∉ tlsHosts := by
  constructor
  · intro h
    obtain ⟨x, hx⟩ := List.exists_mem_of_ne_nil _ h
    exact ⟨x, (mem_missing ord ruleHosts tlsHosts x).1 hx⟩
  · rintro ⟨x, hx⟩
    exact List.ne_nil_of_mem ((mem_missing ord ruleHosts tlsHosts x).2 hx)

theorem extra_ne_nil_iff (ord : RangeOrder) (ruleHosts tlsHosts : HostSet) :
    (ord.tls tlsHosts).filter (fun host => !(ruleHosts.contains host)) ≠ [] ↔
      ∃ x, x ∈ tlsHosts ∧ x ∉ ruleHosts := by
  constructor
  · intro h
    obtain ⟨x, hx⟩ := List.exists_mem_of_ne_nil _ h
    exact ⟨x, (mem_extra ord ruleHosts tlsHosts x).1 hx⟩
  · rintro ⟨x, hx⟩
    exact List.ne_nil_of_mem ((mem_extra ord ruleHosts tlsHosts x).2 hx)

theorem compare_of_ne (ord : RangeOrder) (ruleHosts tlsHosts : HostSet)
    (hne : ¬ ∀ x, x ∈ ruleHosts ↔ x ∈ tlsHosts) :
    compareRuleAndTLSHosts ord ruleHosts tlsHosts =
      mismatchMessage
        ((ord.rule ruleHosts).filter (fun host => !(tlsHosts.contains host)))
        ((ord.tls tlsHosts).filter (fun host => !(ruleHosts.contains host))) := by
  rw [compare_eq_mismatchMessage]
  split
  · rename_i hc
    exfalso
    apply hne
    intro x
    constructor
    · intro hx
      by_contra hn
      exact (missing_ne_nil_iff ord ruleHosts tlsHosts).2 ⟨x, hx, hn⟩ hc.1
    · intro hx
      by_contra hn
      exact (extra_ne_nil_iff ord ruleHosts tlsHosts).2 ⟨x, hx, hn⟩ hc.2
  · rfl

/-- C11 (mismatch message structure): when the two host sets are equal
`compareRuleAndTLSHosts` returns the empty string; when they differ it returns
the "; "-join of the lead-in, the "missing TLS entries" clause, present exactly
when some rule host is not a TLS host, and the "extra hosts" clause, present
exactly when some TLS host is not a rule host, in this order. -/
theorem mismatch_message_structure (ord : RangeOrder) (ruleHosts tlsHosts : HostSet) :
    ((∀ x, x ∈ ruleHosts ↔ x ∈ tlsHosts) →
      compareRuleAndTLSHosts ord ruleHosts tlsHosts = "") ∧
    ((¬ ∀ x, x ∈ ruleHosts ↔ x ∈ tlsHosts) →
      ∃ missing extra : List String,
        (missing ≠ [] ↔ ∃ x, x ∈ ruleHosts ∧ x ∉ tlsHosts) ∧
        (extra ≠ [] ↔ ∃ x, x ∈ tlsHosts ∧ x ∉ ruleHosts) ∧
        compareRuleAndTLSHosts ord ruleHosts tlsHosts =
          join
            (["TLS hosts must match Ingress rules hosts when force-ssl-redirect is true"] ++
              (if missing = [] then []
                else ["missing TLS entries for hosts: " ++ join missing ","]) ++
              (if extra = [] then []
                else ["TLS has extra hosts not present in rules: " ++ join extra ","]))
            "; ") := by
  refine ⟨(compare_eq_empty_iff ord ruleHosts tlsHosts).2, ?_⟩
  intro hne
  exact ⟨_, _, missing_ne_nil_iff ord ruleHosts tlsHosts, extra_ne_nil_iff ord ruleHosts tlsHosts,
    compare_of_ne ord ruleHosts tlsHosts hne⟩

/-- Witness of C11: rule hosts a.com and b.com against the TLS host a.com. -/
theorem mismatch_message_structure_witness :
    ∃ missing extra : List String,
      (missing ≠ [] ↔ ∃ x, x ∈ ["a.com", "b.com"] ∧ x ∉ ["a.com"]) ∧
      (extra ≠ [] ↔ ∃ x, x ∈ ["a.com"] ∧ x ∉ ["a.com", "b.com"]) ∧
      compareRuleAndTLSHosts insertionOrder ["a.com", "b.com"] ["a.com"] =
        join
          (["TLS hosts must match Ingress rules hosts when force-ssl-redirect is true"] ++
            (if missing = [] then []
              else ["missing TLS entries for hosts: " ++ join missing ","]) ++
            (if extra = [] then []
              else ["TLS has extra hosts not present in rules: " ++ join extra ","]))
          "; " :=
  (mismatch_message_structure insertionOrder ["a.com", "b.com"] ["a.com"]).2
    (fun h => absurd ((h "b.com").1 (by simp)) (by decide))

theorem rule_order_singleton (ord : RangeOrder) (a : String) : ord.rule [a] = [a] :=
  List.perm_singleton.1 (ord.rule_perm [a])

theorem tls_order_singleton (ord : RangeOrder) (a : String) : ord.tls [a] = [a] :=
  List.perm_singleton.1 (ord.tls_perm [a])

theorem compare_singletons (ord : RangeOrder) (a b : String) :
    compareRuleAndTLSHosts ord [a] [b] = compareRuleAndTLSHosts insertionOrder [a] [b] := by
  simp only [compareRuleAndTLSHosts, rule_order_singleton, tls_order_singleton, insertionOrder,
    id]

theorem missing_nodup (ord : RangeOrder) (ruleHosts tlsHosts : HostSet) (h : ruleHosts.Nodup) :
    ((ord.rule ruleHosts).filter (fun host => !(tlsHosts.contains host))).Nodup :=
  List.Nodup.filter _ ((ord.rule_perm ruleHosts).nodup_iff.2 h)

theorem extra_nodup (ord : RangeOrder) (ruleHosts tlsHosts : HostSet) (h : tlsHosts.Nodup) :
    ((ord.tls tlsHosts).filter (fun host => !(ruleHosts.contains host))).Nodup :=
  List.Nodup.filter _ ((ord.tls_perm tlsHosts).nodup_iff.2 h)

set_option maxRecDepth 100000 in
/-- C12 (the mismatch message names the correct sides): for host maps with
different key sets, the message of `compareRuleAndTLSHosts` is the mismatch
message built from a duplicate-free list of exactly the rule hosts that are no
TLS host and a duplicate-free list of exactly the TLS hosts that are no rule
host, so no common host is listed; and the mismatching resource of the tests
gets the full message naming `example.com` as missing and `other.com` as
extra. -/
theorem mismatch_message_sides (ord : RangeOrder) (ruleHosts tlsHosts : HostSet)
    (hR : ruleHosts.Nodup) (hT : tlsHosts.Nodup)
    (hne : ¬ ∀ x, x ∈ ruleHosts ↔ x ∈ tlsHosts) :
    (∃ missing extra : List String,
      missing.Nodup ∧ (∀ x, x ∈ missing ↔ x ∈ ruleHosts ∧ x ∉ tlsHosts) ∧
      extra.Nodup ∧ (∀ x, x ∈ extra ↔ x ∈ tlsHosts ∧ x ∉ ruleHosts) ∧
      compareRuleAndTLSHosts ord ruleHosts tlsHosts = mismatchMessage missing extra) ∧
    evaluateIngressRequest ord ⟨true⟩ mismatchedIngress =
      some ⟨false,
        some "TLS hosts must match Ingress rules hosts when force-ssl-redirect is true; missing TLS entries for hosts: example.com; TLS has extra hosts not present in rules: other.com",
        none⟩ := by
  refine ⟨⟨_, _, missing_nodup ord ruleHosts tlsHosts hR, mem_missing ord ruleHosts tlsHosts,
    extra_nodup ord ruleHosts tlsHosts hT, mem_extra ord ruleHosts tlsHosts,
    compare_of_ne ord ruleHosts tlsHosts hne⟩, ?_⟩
  rw [evaluate_rule_ok ord ⟨true⟩ mismatchedIngress
    ⟨[some ⟨"example.com", []⟩], [some ⟨["other.com"], ""⟩]⟩ ["example.com"] rfl (by decide) rfl
    (by simp) rfl]
  have ht : tlsLoop [some ⟨["other.com"], ""⟩] [] = ["other.com"] := by decide
  simp only [ht, compare_singletons]
  decide

/-- Witness of C12: rule hosts a.com and b.com against TLS hosts a.com and
c.com. -/
theorem mismatch_message_sides_witness :
    ∃ missing extra : List String,
      missing.Nodup ∧ (∀ x, x ∈ missing ↔ x ∈ ["a.com", "b.com"] ∧ x ∉ ["a.com", "c.com"]) ∧
      extra.Nodup ∧ (∀ x, x ∈ extra ↔ x ∈ ["a.com", "c.com"] ∧ x ∉ ["a.com", "b.com"]) ∧
      compareRuleAndTLSHosts reverseOrder ["a.com", "b.com"] ["a.com", "c.com"] =
        mismatchMessage missing extra :=
  (mismatch_message_sides reverseOrder ["a.com", "b.com"] ["a.com", "c.com"]
    (by decide) (by decide)
    (fun h => absurd ((h "b.com").1 (by simp)) (by decide))).1

/-! ## When the evaluator accepts -/

theorem evaluate_accept_iff (ord : RangeOrder) (settings : Settings) (ingress : Ingress)
    (spec : IngressSpec)
    (hs : settings.ValidateForceSslRedirect = true)
    (hann : isForceSSLRedirectEnabled (some (ingressAnnotations ingress)) = true)
    (hspec : ingress.Spec = some spec) :
    evaluateIngressRequest ord settings ingress = some AcceptRequest ↔
      spec.TLS ≠ [] ∧ (∀ rule, some rule ∈ spec.Rules → rule.Host ≠ "") ∧
      (ruleHostSet spec.Rules).Nonempty ∧ ruleHostSet spec.Rules = tlsHostSet spec.TLS := by
  by_cases htls : spec.TLS = []
  · simp [evaluateIngressRequest, hs, hann, hspec, htls, RejectRequest, AcceptRequest]
  by_cases hempty : ∃ rule, some rule ∈ spec.Rules ∧ rule.Host = ""
  · rw [evaluate_rule_error ord settings ingress spec _ hs hann hspec htls
      (ruleLoop_error spec.Rules [] hempty) (by decide)]
    constructor
    · intro h
      simp [RejectRequest, AcceptRequest] at h
    · rintro ⟨_, hhost, _⟩
      obtain ⟨rule, hr, h0⟩ := hempty
      exact absurd h0 (hhost rule hr)
  have hhost : ∀ rule, some rule ∈ spec.Rules → rule.Host ≠ "" :=
    fun rule hr h0 => hempty ⟨rule, hr, h0⟩
  obtain ⟨ruleHosts, hloop, hmemR⟩ := ruleLoop_ok spec.Rules [] hhost
  have hRiff : ruleHosts ≠ [] ↔ (ruleHostSet spec.Rules).Nonempty := by
    constructor
    · intro h
      obtain ⟨x, hx⟩ := List.exists_mem_of_ne_nil _ h
      rcases (hmemR x).1 hx with h1 | h1
      · simp at h1
      · exact ⟨x, (mem_ruleHostSet _ _).2 h1⟩
    · rintro ⟨x, hx⟩
      exact List.ne_nil_of_mem ((hmemR x).2 (Or.inr ((mem_ruleHostSet _ _).1 hx)))
  have hsets : (∀ x, x ∈ ruleHosts ↔ x ∈ tlsLoop spec.TLS []) ↔
      ruleHostSet spec.Rules = tlsHostSet spec.TLS := by
    rw [Finset.ext_iff]
    apply forall_congr'
    intro x
    rw [hmemR x, mem_tlsLoop, mem_ruleHostSet, mem_tlsHostSet]
    simp
  rw [evaluate_rule_ok ord settings ingress spec ruleHosts hs hann hspec htls hloop]
  by_cases hR : ruleHosts = []
  · have hno : ¬ (ruleHostSet spec.Rules).Nonempty := fun h => hRiff.2 h hR
    simp [hR, hno, RejectRequest, AcceptRequest]
  have hRne : (ruleHostSet spec.Rules).Nonempty := hRiff.1 hR
  by_cases hT : tlsLoop spec.TLS [] = []
  · have hneq : ruleHostSet spec.Rules ≠ tlsHostSet spec.TLS := by
      intro heq
      obtain ⟨x, hx⟩ := List.exists_mem_of_ne_nil _ hR
      have := (hsets.2 heq x).1 hx
      rw [hT] at this
      simp at this
    simp [hR, hT, hneq, RejectRequest, AcceptRequest]
  by_cases hc : compareRuleAndTLSHosts ord ruleHosts (tlsLoop spec.TLS []) = ""
  · have heq := hsets.1 ((compare_eq_empty_iff _ _ _).1 hc)
    simp only [hR, hT, hc, if_false, ne_eq, not_true_eq_false, true_iff]
    exact ⟨htls, hhost, hRne, heq⟩
  · have hneq : ruleHostSet spec.Rules ≠ tlsHostSet spec.TLS :=
      fun h => hc ((compare_eq_empty_iff _ _ _).2 (hsets.2 h))
    simp [hR, hT, hc, hneq, RejectRequest, AcceptRequest]

/-- C13 (TLS hosts are pooled; only the host sets matter): two ingresses under
enforcement, with the annotation enabled, a spec, a non-empty TLS sequence and
no present rule with an empty host, that have the same set of rule hosts and
the same pooled set of non-empty TLS hosts, are accepted together or rejected
together, whatever the visiting orders. Rules a.com and b.com are accepted
with one TLS entry per host as with one entry for both, and a rule host given
twice is accepted with a single TLS host. -/
theorem pooled_tls_hosts (ord₁ ord₂ : RangeOrder) (settings : Settings)
    (ingress₁ ingress₂ : Ingress) (spec₁ spec₂ : IngressSpec)
    (hs : settings.ValidateForceSslRedirect = true)
    (hann₁ : isForceSSLRedirectEnabled (some (ingressAnnotations ingress₁)) = true)
    (hann₂ : isForceSSLRedirectEnabled (some (ingressAnnotations ingress₂)) = true)
    (hspec₁ : ingress₁.Spec = some spec₁) (hspec₂ : ingress₂.Spec = some spec₂)
    (htls₁ : spec₁.TLS ≠ []) (htls₂ : spec₂.TLS ≠ [])
    (hhost₁ : ∀ rule, some rule ∈ spec₁.Rules → rule.Host ≠ "")
    (hhost₂ : ∀ rule, some rule ∈ spec₂.Rules → rule.Host ≠ "")
    (hR : ruleHostSet spec₁.Rules = ruleHostSet spec₂.Rules)
    (hT : tlsHostSet spec₁.TLS = tlsHostSet spec₂.TLS) :
    (evaluateIngressRequest ord₁ settings ingress₁ = some AcceptRequest ↔
      evaluateIngressRequest ord₂ settings ingress₂ = some AcceptRequest) ∧
    evaluateIngressRequest ord₁ ⟨true⟩ splitTlsIngress = some AcceptRequest ∧
    evaluateIngressRequest ord₁ ⟨true⟩ pooledTlsIngress = some AcceptRequest ∧
    evaluateIngressRequest ord₁ ⟨true⟩ duplicateRuleIngress = some AcceptRequest := by
  refine ⟨?_, ?_, ?_, ?_⟩
  · rw [evaluate_accept_iff ord₁ settings ingress₁ spec₁ hs hann₁ hspec₁,
      evaluate_accept_iff ord₂ settings ingress₂ spec₂ hs hann₂ hspec₂, hR, hT]
    constructor
    · rintro ⟨_, _, h3, h4⟩
      exact ⟨htls₂, hhost₂, h3, h4⟩
    · rintro ⟨_, _, h3, h4⟩
      exact ⟨htls₁, hhost₁, h3, h4⟩
  · rw [evaluate_accept_iff ord₁ ⟨true⟩ splitTlsIngress _ rfl (by decide) rfl]
    refine ⟨by simp, by simp, ⟨"a.com", by simp [ruleHostSet]⟩, ?_⟩
    ext x
    simp [ruleHostSet, tlsHostSet]
  · rw [evaluate_accept_iff ord₁ ⟨true⟩ pooledTlsIngress _ rfl (by decide) rfl]
    refine ⟨by simp, by simp, ⟨"a.com", by simp [ruleHostSet]⟩, ?_⟩
    ext x
    simp [ruleHostSet, tlsHostSet]
  · rw [evaluate_accept_iff ord₁ ⟨true⟩ duplicateRuleIngress _ rfl (by decide) rfl]
    refine ⟨by simp, by simp, ⟨"a.com", by simp [ruleHostSet]⟩, ?_⟩
    ext x
    simp [ruleHostSet, tlsHostSet]

/-- Witness of C13: one TLS entry per host against one entry for both. -/
theorem pooled_tls_hosts_witness :
    evaluateIngressRequest insertionOrder ⟨true⟩ splitTlsIngress = some AcceptRequest ↔
      evaluateIngressRequest reverseOrder ⟨true⟩ pooledTlsIngress = some AcceptRequest :=
  (pooled_tls_hosts insertionOrder reverseOrder ⟨true⟩ splitTlsIngress pooledTlsIngress
    ⟨[some ⟨"a.com", []⟩, some ⟨"b.com", []⟩], [some ⟨["a.com"], "s1"⟩, some ⟨["b.com"], "s2"⟩]⟩
    ⟨[some ⟨"a.com", []⟩, some ⟨"b.com", []⟩], [some ⟨["a.com", "b.com"], "s"⟩]⟩
    rfl (by decide) (by decide) rfl rfl (by simp) (by simp)
    (by
      intro rule hr
      simp at hr
      rcases hr with rfl | rfl <;> decide)
    (by
      intro rule hr
      simp at hr
      rcases hr with rfl | rfl <;> decide)
    rfl
    (by
      ext x
      simp [tlsHostSet])).1

/-! ## The shape of every verdict -/

theorem mismatchMessage_ne_empty (missing extra : List String) :
    mismatchMessage missing extra ≠ "" := by
  unfold mismatchMessage
  exact join_cons_ne_empty _ _ _ (by decide)

theorem evaluate_cases (settings : Settings) (ingress : Ingress) :
    (∃ r, (r = AcceptRequest ∨ ∃ msg, msg ≠ "" ∧ r = ⟨false, some msg, none⟩) ∧
      ∀ ord, evaluateIngressRequest ord settings ingress = some r) ∨
    (∃ ruleHosts tlsHosts : HostSet, ∀ ord,
      evaluateIngressRequest ord settings ingress =
        some ⟨false,
          some (mismatchMessage
            ((ord.rule ruleHosts).filter (fun host => !(tlsHosts.contains host)))
            ((ord.tls tlsHosts).filter (fun host => !(ruleHosts.contains host)))),
          none⟩) := by
  by_cases hs : settings.ValidateForceSslRedirect = true
  swap
  · exact Or.inl ⟨AcceptRequest, Or.inl rfl, fun ord => by simp [evaluateIngressRequest, hs]⟩
  by_cases hann : isForceSSLRedirectEnabled (some (ingressAnnotations ingress)) = true
  swap
  · exact Or.inl ⟨AcceptRequest, Or.inl rfl,
      fun ord => by simp [evaluateIngressRequest, hs, hann]⟩
  cases hspec : ingress.Spec with
  | none =>
    exact Or.inl ⟨_, Or.inr ⟨"force-ssl-redirect is true but Ingress spec is missing",
      by decide, rfl⟩,
      fun ord => by simp [evaluateIngressRequest, hs, hann, hspec, RejectRequest, NoCode]⟩
  | some spec =>
    by_cases htls : spec.TLS = []
    · exact Or.inl ⟨_, Or.inr
        ⟨"force-ssl-redirect is true but no TLS configuration (spec.tls) is defined",
          by decide, rfl⟩,
        fun ord => by
          simp [evaluateIngressRequest, hs, hann, hspec, htls, RejectRequest, NoCode]⟩
    by_cases hempty : ∃ rule, some rule ∈ spec.Rules ∧ rule.Host = ""
    · refine Or.inl ⟨_, Or.inr
        ⟨"force-ssl-redirect is true but one or more Ingress rules have an empty host",
          by decide, rfl⟩, fun ord => ?_⟩
      rw [evaluate_rule_error ord settings ingress spec _ hs hann hspec htls
        (ruleLoop_error spec.Rules [] hempty) (by decide)]
      simp [RejectRequest, NoCode]
    have hhost : ∀ rule, some rule ∈ spec.Rules → rule.Host ≠ "" :=
      fun rule hr h0 => hempty ⟨rule, hr, h0⟩
    obtain ⟨ruleHosts, hloop, _⟩ := ruleLoop_ok spec.Rules [] hhost
    by_cases hR : ruleHosts = []
    · refine Or.inl ⟨_, Or.inr
        ⟨"force-ssl-redirect is true but Ingress has no rules with host defined",
          by decide, rfl⟩, fun ord => ?_⟩
      rw [evaluate_rule_ok ord settings ingress spec ruleHosts hs hann hspec htls hloop]
      simp [hR, RejectRequest, NoCode]
    by_cases hT : tlsLoop spec.TLS [] = []
    · refine Or.inl ⟨_, Or.inr
        ⟨"force-ssl-redirect is true but spec.tls[*].hosts is empty", by decide, rfl⟩,
        fun ord => ?_⟩
      rw [evaluate_rule_ok ord settings ingress spec ruleHosts hs hann hspec htls hloop]
      simp [hR, hT, RejectRequest, NoCode]
    by_cases hsame : ∀ x, x ∈ ruleHosts ↔ x ∈ tlsLoop spec.TLS []
    · refine Or.inl ⟨AcceptRequest, Or.inl rfl, fun ord => ?_⟩
      rw [evaluate_rule_ok ord settings ingress spec ruleHosts hs hann hspec htls hloop]
      simp [hR, hT, (compare_eq_empty_iff ord _ _).2 hsame]
    · refine Or.inr ⟨ruleHosts, tlsLoop spec.TLS [], fun ord => ?_⟩
      rw [evaluate_rule_ok ord settings ingress spec ruleHosts hs hann hspec htls hloop]
      have hc : compareRuleAndTLSHosts ord ruleHosts (tlsLoop spec.TLS []) ≠ "" :=
        fun h => hsame ((compare_eq_empty_iff ord _ _).1 h)
      simp only [hR, hT, if_false, hc, ne_eq, not_false_eq_true, if_true]
      rw [compare_of_ne ord _ _ hsame] at hc ⊢
      unfold RejectRequest
      rw [if_neg hc]
      simp [NoCode]

theorem perm_eq_of_length_le_one (l₁ l₂ : List String) (h : l₁.Perm l₂)
    (hl : l₁.length ≤ 1) : l₁ = l₂ := by
  cases l₁ with
  | nil => exact (List.nil_perm.1 h).symm
  | cons a t =>
    cases t with
    | nil => exact List.singleton_perm.1 h
    | cons b t => simp at hl

set_option maxRecDepth 100000 in
/-- C14, as stated, fails: with two rule hosts missing from TLS, two
evaluations of the same settings and ingress that visit the rule host map in
different orders reject with different messages. -/
theorem determinism_counterexample :
    evaluateIngressRequest insertionOrder ⟨true⟩ twoMissingIngress =
      some ⟨false,
        some "TLS hosts must match Ingress rules hosts when force-ssl-redirect is true; missing TLS entries for hosts: a.com,b.com; TLS has extra hosts not present in rules: c.com",
        none⟩ ∧
    evaluateIngressRequest reverseOrder ⟨true⟩ twoMissingIngress =
      some ⟨false,
        some "TLS hosts must match Ingress rules hosts when force-ssl-redirect is true; missing TLS entries for hosts: b.com,a.com; TLS has extra hosts not present in rules: c.com",
        none⟩ ∧
    evaluateIngressRequest insertionOrder ⟨true⟩ twoMissingIngress ≠
      evaluateIngressRequest reverseOrder ⟨true⟩ twoMissingIngress := by
  decide

/-- C14, amended: two evaluations of the same settings and ingress both return
a verdict, with the same accepted flag and the same (absent) code; the two
verdicts are equal, message included, except on a host mismatch, where the two
messages are mismatch messages over the same missing hosts and the same extra
hosts, possibly listed in different orders, and are equal when at most one
host is missing and at most one is extra. -/
theorem verdict_up_to_host_order (ord₁ ord₂ : RangeOrder) (settings : Settings)
    (ingress : Ingress) :
    ∃ r₁ r₂, evaluateIngressRequest ord₁ settings ingress = some r₁ ∧
      evaluateIngressRequest ord₂ settings ingress = some r₂ ∧
      r₁.Accepted = r₂.Accepted ∧ r₁.Code = r₂.Code ∧
      (r₁ = r₂ ∨
        ∃ missing₁ missing₂ extra₁ extra₂ : List String,
          missing₁.Perm missing₂ ∧ extra₁.Perm extra₂ ∧
          r₁.Message = some (mismatchMessage missing₁ extra₁) ∧
          r₂.Message = some (mismatchMessage missing₂ extra₂) ∧
          (missing₁.length ≤ 1 → extra₁.length ≤ 1 → r₁ = r₂)) := by
  rcases evaluate_cases settings ingress with ⟨r, _, hr⟩ | ⟨ruleHosts, tlsHosts, hr⟩
  · exact ⟨r, r, hr ord₁, hr ord₂, rfl, rfl, Or.inl rfl⟩
  · have hm : ((ord₁.rule ruleHosts).filter (fun host => !(tlsHosts.contains host))).Perm
        ((ord₂.rule ruleHosts).filter (fun host => !(tlsHosts.contains host))) :=
      List.Perm.filter _ ((ord₁.rule_perm ruleHosts).trans (ord₂.rule_perm ruleHosts).symm)
    have he : ((ord₁.tls tlsHosts).filter (fun host => !(ruleHosts.contains host))).Perm
        ((ord₂.tls tlsHosts).filter (fun host => !(ruleHosts.contains host))) :=
      List.Perm.filter _ ((ord₁.tls_perm tlsHosts).trans (ord₂.tls_perm tlsHosts).symm)
    refine ⟨_, _, hr ord₁, hr ord₂, rfl, rfl, Or.inr ⟨_, _, _, _, hm, he, rfl, rfl, ?_⟩⟩
    intro h1 h2
    rw [perm_eq_of_length_le_one _ _ hm h1, perm_eq_of_length_le_one _ _ he h2]

/-- C15 (the evaluator never fails): for every settings value and every
ingress the evaluator returns a verdict, Accept or a rejection with a message,
never a fault; the nil dereference of `collectRuleHosts` and `collectTLSHosts`
needs a missing spec, which the evaluator rules out before it calls them. -/
theorem evaluator_never_fails (ord : RangeOrder) (settings : Settings) (ingress : Ingress) :
    (∃ r, evaluateIngressRequest ord settings ingress = some r ∧
      (r = AcceptRequest ∨ ∃ msg, msg ≠ "" ∧ r = ⟨false, some msg, none⟩)) ∧
    (collectRuleHosts ingress = none ↔ ingress.Spec = none) ∧
    (collectTLSHosts ingress = none ↔ ingress.Spec = none) := by
  refine ⟨?_, ?_, ?_⟩
  · rcases evaluate_cases settings ingress with ⟨r, hshape, hr⟩ | ⟨ruleHosts, tlsHosts, hr⟩
    · exact ⟨r, hr ord, hshape⟩
    · exact ⟨_, hr ord, Or.inr ⟨_, mismatchMessage_ne_empty _ _, rfl⟩⟩
  · cases hspec : ingress.Spec with
    | none => simp [collectRuleHosts, hspec]
    | some spec =>
      simp only [collectRuleHosts, hspec]
      cases ruleLoop spec.Rules [] with
      | error msg => simp
      | ok ruleHosts => by_cases h : ruleHosts.length = 0 <;> simp [h]
  · cases hspec : ingress.Spec with
    | none => simp [collectTLSHosts, hspec]
    | some spec =>
      simp only [collectTLSHosts, hspec]
      by_cases h : (tlsLoop spec.TLS []).length = 0 <;> simp [h]

/-- C16 (policy rejections carry no numeric code): every rejection of the
evaluator has a non-empty message and no code; `validate` returns the code 400
on each of its three decoding failures, and when all three decoding steps
succeed its response has no code. -/
theorem rejections_carry_no_code (ord : RangeOrder) (settings : Settings) (ingress : Ingress)
    (r : ValidationResponse)
    (hr : evaluateIngressRequest ord settings ingress = some r)
    (hrej : r.Accepted = false) :
    ((∃ msg, msg ≠ "" ∧ r.Message = some msg) ∧ r.Code = none) ∧
    (∀ (dec : Decoders) (payload err : String),
      dec.unmarshalRequest payload = .error err →
      ∃ r', validate dec ord payload = some r' ∧ r'.Accepted = false ∧ r'.Code = some 400) ∧
    (∀ (dec : Decoders) (payload settingsJSON ingressJSON err : String),
      dec.unmarshalRequest payload = .ok (settingsJSON, ingressJSON) →
      dec.newSettings settingsJSON = .error err →
      ∃ r', validate dec ord payload = some r' ∧ r'.Accepted = false ∧ r'.Code = some 400) ∧
    (∀ (dec : Decoders) (payload settingsJSON ingressJSON err : String) (st : Settings),
      dec.unmarshalRequest payload = .ok (settingsJSON, ingressJSON) →
      dec.newSettings settingsJSON = .ok st →
      dec.unmarshalIngress ingressJSON = .error err →
      ∃ r', validate dec ord payload = some r' ∧ r'.Accepted = false ∧ r'.Code = some 400) ∧
    (∀ (dec : Decoders) (payload settingsJSON ingressJSON : String) (st : Settings)
      (ing : Ingress) (r' : ValidationResponse),
      dec.unmarshalRequest payload = .ok (settingsJSON, ingressJSON) →
      dec.newSettings settingsJSON = .ok st →
      dec.unmarshalIngress ingressJSON = .ok ing →
      validate dec ord payload = some r' → r'.Code = none) := by
  refine ⟨?_, ?_, ?_, ?_, ?_⟩
  · rcases evaluate_cases settings ingress with ⟨r₀, hshape, h₀⟩ | ⟨ruleHosts, tlsHosts, h₀⟩
    · have hrr : r = r₀ := Option.some.inj (hr.symm.trans (h₀ ord))
      subst hrr
      rcases hshape with rfl | ⟨msg, hmsg, rfl⟩
      · simp [AcceptRequest] at hrej
      · exact ⟨⟨msg, hmsg, rfl⟩, rfl⟩
    · have hrr := Option.some.inj (hr.symm.trans (h₀ ord))
      subst hrr
      exact ⟨⟨_, mismatchMessage_ne_empty _ _, rfl⟩, rfl⟩
  · intro dec payload err h1
    refine ⟨RejectRequest err httpBadRequestStatusCode, by simp [validate, h1], rfl, ?_⟩
    simp [RejectRequest, httpBadRequestStatusCode, NoCode]
  · intro dec payload settingsJSON ingressJSON err h1 h2
    refine ⟨RejectRequest err httpBadRequestStatusCode, by simp [validate, h1, h2], rfl, ?_⟩
    simp [RejectRequest, httpBadRequestStatusCode, NoCode]
  · intro dec payload settingsJSON ingressJSON err st h1 h2 h3
    refine ⟨RejectRequest ("Cannot decode Ingress object: " ++ err) httpBadRequestStatusCode,
      by simp [validate, h1, h2, h3], rfl, ?_⟩
    simp [RejectRequest, httpBadRequestStatusCode, NoCode]
  · intro dec payload settingsJSON ingressJSON st ing r' h1 h2 h3 hv
    simp only [validate, h1, h2, h3] at hv
    rcases evaluate_cases st ing with ⟨r₀, hshape, h₀⟩ | ⟨ruleHosts, tlsHosts, h₀⟩
    · have hrr : r' = r₀ := Option.some.inj (hv.symm.trans (h₀ ord))
      subst hrr
      rcases hshape with rfl | ⟨msg, _, rfl⟩
      · rfl
      · rfl
    · have hrr := Option.some.inj (hv.symm.trans (h₀ ord))
      subst hrr
      rfl

/-- Witness of C16: the base resource, rejected for its missing TLS section,
and a payload that the request decoder refuses. -/
theorem rejections_carry_no_code_witness :
    evaluateIngressRequest insertionOrder ⟨true⟩ baseIngress =
      some ⟨false,
        some "force-ssl-redirect is true but no TLS configuration (spec.tls) is defined",
        none⟩ ∧
    ((∃ msg, msg ≠ "" ∧
      (⟨false, some "force-ssl-redirect is true but no TLS configuration (spec.tls) is defined",
        none⟩ : ValidationResponse).Message = some msg) ∧
    (⟨false, some "force-ssl-redirect is true but no TLS configuration (spec.tls) is defined",
      none⟩ : ValidationResponse).Code = none) ∧
    ∃ r', validate sampleDecoders insertionOrder "" = some r' ∧ r'.Accepted = false ∧
      r'.Code = some 400 :=
  have h := rejections_carry_no_code insertionOrder ⟨true⟩ baseIngress
    ⟨false, some "force-ssl-redirect is true but no TLS configuration (spec.tls) is defined",
      none⟩
    (by decide) rfl
  ⟨by decide, h.1, h.2.1 sampleDecoders "" "unexpected end of JSON input" rfl⟩

/-! ## What the evaluator reads -/

theorem annotationValue_eq (ingress : Ingress) (key : String) :
    annotationValue ingress key = (ingressAnnotations ingress).lookup key := by
  unfold annotationValue ingressAnnotations
  cases ingress.Metadata with
  | none => rfl
  | some metadata =>
    cases h : metadata.Annotations with
    | none => simp [h]
    | some a => simp [h]

theorem isForce_congr (m₁ m₂ : List (String × String))
    (h1 : m₁.lookup "nginx.ingress.kubernetes.io/force-ssl-redirect" =
      m₂.lookup "nginx.ingress.kubernetes.io/force-ssl-redirect")
    (h2 : m₁.lookup "force-ssl-redirect" = m₂.lookup "force-ssl-redirect") :
    isForceSSLRedirectEnabled (some m₁) = isForceSSLRedirectEnabled (some m₂) := by
  simp only [isForceSSLRedirectEnabled, keys, keysLoop, h1, h2]

theorem ruleLoop_congr (rules₁ rules₂ : List (Option IngressRule)) (acc : HostSet)
    (h : ruleView rules₁ = ruleView rules₂) : ruleLoop rules₁ acc = ruleLoop rules₂ acc := by
  induction rules₁ generalizing rules₂ acc with
  | nil =>
    cases rules₂ with
    | nil => rfl
    | cons r rs => simp [ruleView] at h
  | cons r₁ rest₁ ih =>
    cases rules₂ with
    | nil => simp [ruleView] at h
    | cons r₂ rest₂ =>
      simp only [ruleView, List.map_cons, List.cons.injEq] at h
      obtain ⟨hhead, htail⟩ := h
      cases r₁ with
      | none =>
        cases r₂ with
        | none => exact ih rest₂ acc htail
        | some b => simp at hhead
      | some a =>
        cases r₂ with
        | none => simp at hhead
        | some b =>
          have hab : a.Host = b.Host := by simpa using hhead
          simp only [ruleLoop, hab]
          by_cases hb : b.Host = ""
          · simp [hb]
          · simp only [hb, if_false]
            exact ih rest₂ _ htail

theorem tlsLoop_congr (tls₁ tls₂ : List (Option IngressTLS)) (acc : HostSet)
    (h : tlsView tls₁ = tlsView tls₂) : tlsLoop tls₁ acc = tlsLoop tls₂ acc := by
  induction tls₁ generalizing tls₂ acc with
  | nil =>
    cases tls₂ with
    | nil => rfl
    | cons r rs => simp [tlsView] at h
  | cons t₁ rest₁ ih =>
    cases tls₂ with
    | nil => simp [tlsView] at h
    | cons t₂ rest₂ =>
      simp only [tlsView, List.map_cons, List.cons.injEq] at h
      obtain ⟨hhead, htail⟩ := h
      cases t₁ with
      | none =>
        cases t₂ with
        | none => exact ih rest₂ acc htail
        | some b => simp at hhead
      | some a =>
        cases t₂ with
        | none => simp at hhead
        | some b =>
          have hab : a.Hosts = b.Hosts := by simpa using hhead
          simp only [tlsLoop, hab]
          exact ih rest₂ _ htail

theorem evaluate_congr_view (ord : RangeOrder) (settings : Settings)
    (ingress₁ ingress₂ : Ingress)
    (hnginx : annotationValue ingress₁ "nginx.ingress.kubernetes.io/force-ssl-redirect" =
      annotationValue ingress₂ "nginx.ingress.kubernetes.io/force-ssl-redirect")
    (hbare : annotationValue ingress₁ "force-ssl-redirect" =
      annotationValue ingress₂ "force-ssl-redirect")
    (hview : specView ingress₁.Spec = specView ingress₂.Spec) :
    evaluateIngressRequest ord settings ingress₁ =
      evaluateIngressRequest ord settings ingress₂ := by
  have hann : isForceSSLRedirectEnabled (some (ingressAnnotations ingress₁)) =
      isForceSSLRedirectEnabled (some (ingressAnnotations ingress₂)) := by
    apply isForce_congr
    · rw [← annotationValue_eq, ← annotationValue_eq]
      exact hnginx
    · rw [← annotationValue_eq, ← annotationValue_eq]
      exact hbare
  cases hspec₁ : ingress₁.Spec with
  | none =>
    cases hspec₂ : ingress₂.Spec with
    | none => simp only [evaluateIngressRequest, hspec₁, hspec₂, hann]
    | some spec₂ => simp [hspec₁, hspec₂, specView] at hview
  | some spec₁ =>
    cases hspec₂ : ingress₂.Spec with
    | none => simp [hspec₁, hspec₂, specView] at hview
    | some spec₂ =>
      simp only [hspec₁, hspec₂, specView, Option.map_some', Option.some.injEq,
        Prod.mk.injEq] at hview
      obtain ⟨hrules, htls⟩ := hview
      have e1 := ruleLoop_congr spec₁.Rules spec₂.Rules [] hrules
      have e2 := tlsLoop_congr spec₁.TLS spec₂.TLS [] htls
      have e3 : spec₁.TLS.length = spec₂.TLS.length := by
        have := congrArg List.length htls
        simpa [tlsView] using this
      simp only [evaluateIngressRequest, collectRuleHosts, collectTLSHosts, hspec₁, hspec₂,
        hann, e1, e2, e3]

theorem cross_order_verdicts (ord₁ ord₂ : RangeOrder) (settings : Settings)
    (ingress : Ingress) :
    ∃ r₁ r₂, evaluateIngressRequest ord₁ settings ingress = some r₁ ∧
      evaluateIngressRequest ord₂ settings ingress = some r₂ ∧
      r₁.Accepted = r₂.Accepted ∧ r₁.Code = none ∧ r₂.Code = none ∧
      (r₁ = r₂ ∨
        ∃ missing₁ missing₂ extra₁ extra₂ : List String,
          missing₁.Perm missing₂ ∧ extra₁.Perm extra₂ ∧
          r₁.Message = some (mismatchMessage missing₁ extra₁) ∧
          r₂.Message = some (mismatchMessage missing₂ extra₂) ∧
          (missing₁.length ≤ 1 → extra₁.length ≤ 1 → r₁ = r₂)) := by
  rcases evaluate_cases settings ingress with ⟨r, hshape, hr⟩ | ⟨ruleHosts, tlsHosts, hr⟩
  · have hcode : r.Code = none := by
      rcases hshape with rfl | ⟨msg, _, rfl⟩
      · rfl
      · rfl
    exact ⟨r, r, hr ord₁, hr ord₂, rfl, hcode, hcode, Or.inl rfl⟩
  · have hm : ((ord₁.rule ruleHosts).filter (fun host => !(tlsHosts.contains host))).Perm
        ((ord₂.rule ruleHosts).filter (fun host => !(tlsHosts.contains host))) :=
      List.Perm.filter _ ((ord₁.rule_perm ruleHosts).trans (ord₂.rule_perm ruleHosts).symm)
    have he : ((ord₁.tls tlsHosts).filter (fun host => !(ruleHosts.contains host))).Perm
        ((ord₂.tls tlsHosts).filter (fun host => !(ruleHosts.contains host))) :=
      List.Perm.filter _ ((ord₁.tls_perm tlsHosts).trans (ord₂.tls_perm tlsHosts).symm)
    refine ⟨_, _, hr ord₁, hr ord₂, rfl, rfl, rfl,
      Or.inr ⟨_, _, _, _, hm, he, rfl, rfl, ?_⟩⟩
    intro h1 h2
    rw [perm_eq_of_length_le_one _ _ hm h1, perm_eq_of_length_le_one _ _ he h2]

set_option maxRecDepth 100000 in
/-- C17, as stated, fails: two ingresses that agree on the two recognized
annotation values, on the presence of the spec and on the rule and TLS
sequences get different verdicts when the two evaluations visit the rule host
map in different orders. -/
theorem other_fields_counterexample :
    annotationValue twoMissingIngress "nginx.ingress.kubernetes.io/force-ssl-redirect" =
      annotationValue decoratedTwoMissingIngress
        "nginx.ingress.kubernetes.io/force-ssl-redirect" ∧
    annotationValue twoMissingIngress "force-ssl-redirect" =
      annotationValue decoratedTwoMissingIngress "force-ssl-redirect" ∧
    specView twoMissingIngress.Spec = specView decoratedTwoMissingIngress.Spec ∧
    evaluateIngressRequest insertionOrder ⟨true⟩ twoMissingIngress =
      some ⟨false,
        some "TLS hosts must match Ingress rules hosts when force-ssl-redirect is true; missing TLS entries for hosts: a.com,b.com; TLS has extra hosts not present in rules: c.com",
        none⟩ ∧
    evaluateIngressRequest reverseOrder ⟨true⟩ decoratedTwoMissingIngress =
      some ⟨false,
        some "TLS hosts must match Ingress rules hosts when force-ssl-redirect is true; missing TLS entries for hosts: b.com,a.com; TLS has extra hosts not present in rules: c.com",
        none⟩ ∧
    evaluateIngressRequest insertionOrder ⟨true⟩ twoMissingIngress ≠
      evaluateIngressRequest reverseOrder ⟨true⟩ decoratedTwoMissingIngress := by
  decide

/-- C17, amended: two ingresses that agree on the value or absence of the two
recognized annotation keys, on whether the spec is present, on the sequence of
rule presence and hosts and on the sequence of TLS entry presence and host
lists get the same verdict under a common visiting order of the host maps; and
under any two visiting orders both get a verdict, with the same accepted flag
and no code, and with the same message except on a host mismatch, where the
two messages list the same missing and the same extra hosts, possibly in
different orders, and are equal when at most one host is missing and at most
one is extra. No other field of the ingress influences the verdict. -/
theorem other_fields_ignored (ord₁ ord₂ : RangeOrder) (settings : Settings)
    (ingress₁ ingress₂ : Ingress)
    (hnginx : annotationValue ingress₁ "nginx.ingress.kubernetes.io/force-ssl-redirect" =
      annotationValue ingress₂ "nginx.ingress.kubernetes.io/force-ssl-redirect")
    (hbare : annotationValue ingress₁ "force-ssl-redirect" =
      annotationValue ingress₂ "force-ssl-redirect")
    (hview : specView ingress₁.Spec = specView ingress₂.Spec) :
    evaluateIngressRequest ord₁ settings ingress₁ =
      evaluateIngressRequest ord₁ settings ingress₂ ∧
    ∃ r₁ r₂, evaluateIngressRequest ord₁ settings ingress₁ = some r₁ ∧
      evaluateIngressRequest ord₂ settings ingress₂ = some r₂ ∧
      r₁.Accepted = r₂.Accepted ∧ r₁.Code = none ∧ r₂.Code = none ∧
      (r₁ = r₂ ∨
        ∃ missing₁ missing₂ extra₁ extra₂ : List String,
          missing₁.Perm missing₂ ∧ extra₁.Perm extra₂ ∧
          r₁.Message = some (mismatchMessage missing₁ extra₁) ∧
          r₂.Message = some (mismatchMessage missing₂ extra₂) ∧
          (missing₁.length ≤ 1 → extra₁.length ≤ 1 → r₁ = r₂)) := by
  refine ⟨evaluate_congr_view ord₁ settings ingress₁ ingress₂ hnginx hbare hview, ?_⟩
  rw [← evaluate_congr_view ord₂ settings ingress₁ ingress₂ hnginx hbare hview]
  exact cross_order_verdicts ord₁ ord₂ settings ingress₁

/-- Witness of the amended C17: the mismatching resource of the tests against
one with another name, namespace, extra annotation, rule path and TLS secret,
under a common visiting order. -/
theorem other_fields_ignored_witness :
    evaluateIngressRequest insertionOrder ⟨true⟩ mismatchedIngress =
      evaluateIngressRequest insertionOrder ⟨true⟩ decoratedIngress :=
  (other_fields_ignored insertionOrder reverseOrder ⟨true⟩ mismatchedIngress decoratedIngress
    (by decide) (by decide) (by decide)).1

/-- C20 (either key enables the flag): the redirect is enabled exactly when
one of the two recognized keys is present with a value that, trimmed, equals
"true" under case folding; it is disabled for the nil map; and the result is
the same for a map that carries the two values under exchanged keys. -/
theorem either_key_enables (m : List (String × String)) :
    (isForceSSLRedirectEnabled (some m) = true ↔
      ∃ k v, (k = "nginx.ingress.kubernetes.io/force-ssl-redirect" ∨ k = "force-ssl-redirect") ∧
        m.lookup k = some v ∧ equalFold (trimSpace v) "true" = true) ∧
    isForceSSLRedirectEnabled none = false ∧
    (∀ m' : List (String × String),
      m'.lookup "nginx.ingress.kubernetes.io/force-ssl-redirect" =
        m.lookup "force-ssl-redirect" →
      m'.lookup "force-ssl-redirect" =
        m.lookup "nginx.ingress.kubernetes.io/force-ssl-redirect" →
      isForceSSLRedirectEnabled (some m') = isForceSSLRedirectEnabled (some m)) := by
  have hiff : ∀ m : List (String × String), isForceSSLRedirectEnabled (some m) = true ↔
      ∃ k v, (k = "nginx.ingress.kubernetes.io/force-ssl-redirect" ∨
          k = "force-ssl-redirect") ∧
        m.lookup k = some v ∧ equalFold (trimSpace v) "true" = true := by
    intro m
    constructor
    · intro h
      simp only [isForceSSLRedirectEnabled, keys, keysLoop] at h
      cases h1 : m.lookup "nginx.ingress.kubernetes.io/force-ssl-redirect" with
      | none =>
        cases h2 : m.lookup "force-ssl-redirect" with
        | none => simp [h1, h2] at h
        | some w =>
          simp only [h1, h2] at h
          by_cases hw : equalFold (trimSpace w) "true" = true
          · exact ⟨_, w, Or.inr rfl, h2, hw⟩
          · simp [hw] at h
      | some v =>
        by_cases hv : equalFold (trimSpace v) "true" = true
        · exact ⟨_, v, Or.inl rfl, h1, hv⟩
        · cases h2 : m.lookup "force-ssl-redirect" with
          | none => simp [h1, h2, hv] at h
          | some w =>
            simp only [h1, h2] at h
            by_cases hw : equalFold (trimSpace w) "true" = true
            · exact ⟨_, w, Or.inr rfl, h2, hw⟩
            · simp [hv, hw] at h
    · rintro ⟨k, v, hk | hk, hl, hv⟩
      · subst hk
        simp [isForceSSLRedirectEnabled, keys, keysLoop, hl, hv]
      · subst hk
        cases h1 : m.lookup "nginx.ingress.kubernetes.io/force-ssl-redirect" with
        | none => simp [isForceSSLRedirectEnabled, keys, keysLoop, h1, hl, hv]
        | some u =>
          by_cases hu : equalFold (trimSpace u) "true" = true
          · simp [isForceSSLRedirectEnabled, keys, keysLoop, h1, hu]
          · simp [isForceSSLRedirectEnabled, keys, keysLoop, h1, hl, hv, hu]
  refine ⟨hiff m, rfl, ?_⟩
  intro m' h1 h2
  rw [Bool.eq_iff_iff, hiff m', hiff m]
  constructor
  · rintro ⟨k, v, hk | hk, hl, hv⟩
    · subst hk
      exact ⟨_, v, Or.inr rfl, h1 ▸ hl, hv⟩
    · subst hk
      exact ⟨_, v, Or.inl rfl, h2 ▸ hl, hv⟩
  · rintro ⟨k, v, hk | hk, hl, hv⟩
    · subst hk
      exact ⟨_, v, Or.inr rfl, h2.symm ▸ hl, hv⟩
    · subst hk
      exact ⟨_, v, Or.inl rfl, h1.symm ▸ hl, hv⟩

/-- Witness of C20: the bare key alone set to "True". -/
theorem either_key_enables_witness :
    isForceSSLRedirectEnabled (some [("nginx.ingress.kubernetes.io/force-ssl-redirect", "True")]) =
      isForceSSLRedirectEnabled (some [("force-ssl-redirect", "True")]) :=
  (either_key_enables [("force-ssl-redirect", "True")]).2.2
    [("nginx.ingress.kubernetes.io/force-ssl-redirect", "True")] (by decide) (by decide)

/-! ## Skipped entries -/

theorem accepted_map (ord : RangeOrder) (settings : Settings) (ingress : Ingress) :
    (evaluateIngressRequest ord settings ingress).map (fun r => r.Accepted) =
      some (decide (evaluateIngressRequest ord settings ingress = some AcceptRequest)) := by
  rcases evaluate_cases settings ingress with ⟨r, hshape, hr⟩ | ⟨ruleHosts, tlsHosts, hr⟩
  · rw [hr ord]
    rcases hshape with rfl | ⟨msg, _, rfl⟩
    · simp [AcceptRequest]
    · simp [AcceptRequest]
  · rw [hr ord]
    simp [AcceptRequest]

theorem ruleLoop_filter_isSome (rules : List (Option IngressRule)) (acc : HostSet) :
    ruleLoop (rules.filter Option.isSome) acc = ruleLoop rules acc := by
  induction rules generalizing acc with
  | nil => rfl
  | cons r rest ih =>
    cases r with
    | none => simpa [ruleLoop] using ih acc
    | some rule =>
      simp only [List.filter_cons, Option.isSome_some, if_true, ruleLoop]
      by_cases h0 : rule.Host = ""
      · simp [h0]
      · simp only [h0, if_false]
        exact ih _

theorem some_mem_filter_isSome (rules : List (Option IngressRule)) (rule : IngressRule) :
    some rule ∈ rules.filter Option.isSome ↔ some rule ∈ rules := by
  simp [List.mem_filter]

theorem ruleHostSet_filter_isSome (rules : List (Option IngressRule)) :
    ruleHostSet (rules.filter Option.isSome) = ruleHostSet rules := by
  ext x
  simp only [mem_ruleHostSet, some_mem_filter_isSome]

theorem some_mem_cleaned (tls : List (Option IngressTLS)) (e' : IngressTLS) :
    some e' ∈ (tls.filter Option.isSome).map (Option.map dropEmptyHosts) ↔
      ∃ e, some e ∈ tls ∧ e' = dropEmptyHosts e := by
  simp only [List.mem_map, List.mem_filter]
  constructor
  · rintro ⟨a, ⟨ha, _⟩, hmap⟩
    cases a with
    | none => simp at hmap
    | some e =>
      refine ⟨e, ha, ?_⟩
      simpa using hmap.symm
  · rintro ⟨e, he, rfl⟩
    exact ⟨some e, ⟨he, rfl⟩, rfl⟩

theorem tlsHostSet_cleaned (tls : List (Option IngressTLS)) :
    tlsHostSet ((tls.filter Option.isSome).map (Option.map dropEmptyHosts)) = tlsHostSet tls := by
  ext x
  simp only [mem_tlsHostSet, some_mem_cleaned]
  constructor
  · rintro ⟨e', ⟨e, he, rfl⟩, hx, hne⟩
    refine ⟨e, he, ?_, hne⟩
    simp only [dropEmptyHosts, List.mem_filter] at hx
    exact hx.1
  · rintro ⟨e, he, hx, hne⟩
    refine ⟨dropEmptyHosts e, ⟨e, he, rfl⟩, ?_, hne⟩
    simp only [dropEmptyHosts, List.mem_filter]
    exact ⟨hx, by simpa using hne⟩

theorem tls_ne_nil_of_nonempty (tls : List (Option IngressTLS))
    (h : (tlsHostSet tls).Nonempty) : tls ≠ [] := by
  obtain ⟨x, hx⟩ := h
  obtain ⟨e, he, _⟩ := (mem_tlsHostSet _ _).1 hx
  exact List.ne_nil_of_mem he

theorem evaluate_dropAbsentRules (ord : RangeOrder) (settings : Settings) (ingress : Ingress)
    (spec : IngressSpec) (hspec : ingress.Spec = some spec) :
    evaluateIngressRequest ord settings ⟨ingress.Metadata, some (dropAbsentRules spec)⟩ =
      evaluateIngressRequest ord settings ingress := by
  have hmeta : ∀ sp : Option IngressSpec,
      ingressAnnotations ⟨ingress.Metadata, sp⟩ = ingressAnnotations ingress := fun _ => rfl
  simp only [evaluateIngressRequest, collectRuleHosts, collectTLSHosts, hspec, hmeta,
    dropAbsentRules, ruleLoop_filter_isSome]

set_option maxRecDepth 100000 in
/-- C18, as stated, fails in its last part: removing the absent entries of the
rules changes the message of the verdict when the two evaluations visit the
rule host map in different orders. -/
theorem skipped_entries_counterexample :
    evaluateIngressRequest insertionOrder ⟨true⟩
        ⟨some enabledMeta, some (dropAbsentRules paddedTwoMissingSpec)⟩ =
      some ⟨false,
        some "TLS hosts must match Ingress rules hosts when force-ssl-redirect is true; missing TLS entries for hosts: a.com,b.com; TLS has extra hosts not present in rules: c.com",
        none⟩ ∧
    evaluateIngressRequest reverseOrder ⟨true⟩ ⟨some enabledMeta, some paddedTwoMissingSpec⟩ =
      some ⟨false,
        some "TLS hosts must match Ingress rules hosts when force-ssl-redirect is true; missing TLS entries for hosts: b.com,a.com; TLS has extra hosts not present in rules: c.com",
        none⟩ ∧
    evaluateIngressRequest insertionOrder ⟨true⟩
        ⟨some enabledMeta, some (dropAbsentRules paddedTwoMissingSpec)⟩ ≠
      evaluateIngressRequest reverseOrder ⟨true⟩
        ⟨some enabledMeta, some paddedTwoMissingSpec⟩ := by
  decide

/-- C18, amended: for an ingress with a spec, removing the absent entries of
the rules and of the TLS sequence and the empty strings of every TLS host list
leaves the accepted flag of the verdict unchanged, whatever the visiting
orders of the two evaluations; removing the absent entries of the rules alone
leaves the whole verdict unchanged under a common visiting order, and under
any two visiting orders it leaves the accepted flag and the absence of a code
unchanged and the message unchanged except on a host mismatch, where the two
messages list the same missing and the same extra hosts, possibly in different
orders, and are equal when at most one host is missing and at most one is
extra. -/
theorem skipped_entries (ord₁ ord₂ : RangeOrder) (settings : Settings) (ingress : Ingress)
    (spec : IngressSpec) (hspec : ingress.Spec = some spec) :
    (evaluateIngressRequest ord₁ settings
        ⟨ingress.Metadata, some (dropAbsentAndEmpty spec)⟩).map (fun r => r.Accepted) =
      (evaluateIngressRequest ord₂ settings ingress).map (fun r => r.Accepted) ∧
    evaluateIngressRequest ord₁ settings ⟨ingress.Metadata, some (dropAbsentRules spec)⟩ =
      evaluateIngressRequest ord₁ settings ingress ∧
    ∃ r₁ r₂,
      evaluateIngressRequest ord₁ settings ⟨ingress.Metadata, some (dropAbsentRules spec)⟩ =
        some r₁ ∧
      evaluateIngressRequest ord₂ settings ingress = some r₂ ∧
      r₁.Accepted = r₂.Accepted ∧ r₁.Code = none ∧ r₂.Code = none ∧
      (r₁ = r₂ ∨
        ∃ missing₁ missing₂ extra₁ extra₂ : List String,
          missing₁.Perm missing₂ ∧ extra₁.Perm extra₂ ∧
          r₁.Message = some (mismatchMessage missing₁ extra₁) ∧
          r₂.Message = some (mismatchMessage missing₂ extra₂) ∧
          (missing₁.length ≤ 1 → extra₁.length ≤ 1 → r₁ = r₂)) := by
  have hmeta : ∀ sp : Option IngressSpec,
      ingressAnnotations ⟨ingress.Metadata, sp⟩ = ingressAnnotations ingress := fun _ => rfl
  refine ⟨?_, evaluate_dropAbsentRules ord₁ settings ingress spec hspec, ?_⟩
  · rw [accepted_map, accepted_map]
    congr 1
    apply decide_eq_decide.2
    by_cases hs : settings.ValidateForceSslRedirect = true
    swap
    · simp [evaluateIngressRequest, hs]
    by_cases hann : isForceSSLRedirectEnabled (some (ingressAnnotations ingress)) = true
    swap
    · simp [evaluateIngressRequest, hs, hmeta, hann]
    rw [evaluate_accept_iff ord₁ settings ⟨ingress.Metadata, some (dropAbsentAndEmpty spec)⟩
        (dropAbsentAndEmpty spec) hs (by rw [hmeta]; exact hann) rfl,
      evaluate_accept_iff ord₂ settings ingress spec hs hann hspec]
    simp only [dropAbsentAndEmpty, ruleHostSet_filter_isSome, tlsHostSet_cleaned,
      some_mem_filter_isSome]
    constructor
    · rintro ⟨_, h2, h3, h4⟩
      exact ⟨tls_ne_nil_of_nonempty _ (h4 ▸ h3), h2, h3, h4⟩
    · rintro ⟨_, h2, h3, h4⟩
      refine ⟨?_, h2, h3, h4⟩
      apply tls_ne_nil_of_nonempty
      rw [tlsHostSet_cleaned]
      exact h4 ▸ h3
  · rw [evaluate_dropAbsentRules ord₁ settings ingress spec hspec]
    exact cross_order_verdicts ord₁ ord₂ settings ingress

/-- Witness of the amended C18: absent entries and empty host strings around
a.com, evaluated under two visiting orders. -/
theorem skipped_entries_witness :
    (evaluateIngressRequest insertionOrder ⟨true⟩
        ⟨paddedIngress.Metadata,
          some (dropAbsentAndEmpty
            ⟨[none, some ⟨"a.com", []⟩, none],
              [none, some ⟨["", "a.com", ""], "s"⟩, none]⟩)⟩).map (fun r => r.Accepted) =
      (evaluateIngressRequest reverseOrder ⟨true⟩ paddedIngress).map (fun r => r.Accepted) :=
  (skipped_entries insertionOrder reverseOrder ⟨true⟩ paddedIngress
    ⟨[none, some ⟨"a.com", []⟩, none], [none, some ⟨["", "a.com", ""], "s"⟩, none]⟩ rfl).1

/-- C19 (soundness of Accept): under enforcement with the annotation enabled,
an accepted ingress has a spec, a non-empty TLS sequence and at least one
present rule; every present rule has a non-empty host that occurs in the host
list of some present TLS entry, and every non-empty host of a present TLS
entry is the host of some present rule. -/
theorem accept_is_sound (ord : RangeOrder) (settings : Settings) (ingress : Ingress)
    (hs : settings.ValidateForceSslRedirect = true)
    (hann : isForceSSLRedirectEnabled (some (ingressAnnotations ingress)) = true)
    (hacc : evaluateIngressRequest ord settings ingress = some AcceptRequest) :
    ∃ spec, ingress.Spec = some spec ∧ spec.TLS ≠ [] ∧
      (∃ rule, some rule ∈ spec.Rules) ∧
      (∀ rule, some rule ∈ spec.Rules →
        rule.Host ≠ "" ∧ ∃ e, some e ∈ spec.TLS ∧ rule.Host ∈ e.Hosts) ∧
      (∀ e h, some e ∈ spec.TLS → h ∈ e.Hosts → h ≠ "" →
        ∃ rule, some rule ∈ spec.Rules ∧ rule.Host = h) := by
  cases hspec : ingress.Spec with
  | none =>
    simp [evaluateIngressRequest, hs, hann, hspec, RejectRequest, AcceptRequest] at hacc
  | some spec =>
    obtain ⟨htls, hhost, hne, heq⟩ :=
      (evaluate_accept_iff ord settings ingress spec hs hann hspec).1 hacc
    refine ⟨spec, rfl, htls, ?_, ?_, ?_⟩
    · obtain ⟨x, hx⟩ := hne
      obtain ⟨rule, hr, _⟩ := (mem_ruleHostSet _ _).1 hx
      exact ⟨rule, hr⟩
    · intro rule hr
      refine ⟨hhost rule hr, ?_⟩
      have hx : rule.Host ∈ tlsHostSet spec.TLS :=
        heq ▸ (mem_ruleHostSet _ _).2 ⟨rule, hr, rfl⟩
      obtain ⟨e, he, hmem, _⟩ := (mem_tlsHostSet _ _).1 hx
      exact ⟨e, he, hmem⟩
    · intro e h he hmem hne0
      have hx : h ∈ ruleHostSet spec.Rules :=
        heq ▸ (mem_tlsHostSet _ _).2 ⟨e, he, hmem, hne0⟩
      exact (mem_ruleHostSet _ _).1 hx

/-- Witness of C19: the matching resource of the tests. -/
theorem accept_is_sound_witness :
    ∃ spec, matchingIngress.Spec = some spec ∧ spec.TLS ≠ [] ∧
      (∃ rule, some rule ∈ spec.Rules) ∧
      (∀ rule, some rule ∈ spec.Rules →
        rule.Host ≠ "" ∧ ∃ e, some e ∈ spec.TLS ∧ rule.Host ∈ e.Hosts) ∧
      (∀ e h, some e ∈ spec.TLS → h ∈ e.Hosts → h ≠ "" →
        ∃ rule, some rule ∈ spec.Rules ∧ rule.Host = h) :=
  accept_is_sound insertionOrder ⟨true⟩ matchingIngress rfl (by decide) (by decide)

end IngressForceSsl
